import Mathlib

/-!
Verification of the go-mux/mux request router against its source.

The development shallowly embeds the Go sources (src/regexp.go, src/mux.go,
src/matcher.go, src/middleware.go, src/context.go and the unnamed route file)
into Lean.  Strings are modelled as lists of characters; Go's regexp package
is modelled by a small regular-expression AST together with a Brzozowski
derivative matcher; the compiled route pattern is kept both as the exact
pattern string the source concatenates and as its structured form (the
alternating literal/group segments), which is what the semantic theorems
reason about.
-/

set_option maxHeartbeats 1000000

namespace Mux

/-- Go strings are modelled as lists of characters. -/
abbrev Str := List Char

/-- Embed a Lean string literal as a `Str`. -/
def S (s : String) : Str := s.data

/-! ## Regular expressions

Go's `regexp` package (RE2 syntax) is modelled by the following AST.  Only
the syntax fragment that route templates use is supported; `parseRegex`
rejects everything else, mirroring a `regexp.Compile` error.  `group`
marks a capturing group (`(...)` or a named `(?P<name>...)`), which is what
`NumSubexp` counts; `(?:...)` produces no `group` node. -/
inductive Regex where
  | eps : Regex
  | lit : Char → Regex
  | anyc : Regex
  | cls : Bool → List (Char × Char) → Regex
  | cat : Regex → Regex → Regex
  | alt : Regex → Regex → Regex
  | star : Regex → Regex
  | group : Regex → Regex
  | fail : Regex
deriving Repr, DecidableEq

namespace Regex

/-- Does a single character belong to a (possibly negated) character class?
Go character classes list ranges; a negated class matches any character not
in the ranges (including a newline). -/
def inCls (items : List (Char × Char)) (c : Char) : Bool :=
  items.any (fun p => decide (p.1 ≤ c) && decide (c ≤ p.2))

/-- Does the regular expression accept the empty string? -/
def nullable : Regex → Bool
  | eps => true
  | lit _ => false
  | anyc => false
  | cls _ _ => false
  | cat a b => nullable a && nullable b
  | alt a b => nullable a || nullable b
  | star _ => true
  | group a => nullable a
  | fail => false

/-- Brzozowski derivative with respect to one character. -/
def deriv : Regex → Char → Regex
  | eps, _ => fail
  | lit c, d => if c = d then eps else fail
  | anyc, d => if d = '\n' then fail else eps
  | cls neg items, d => if (inCls items d) ≠ neg then eps else fail
  | cat a b, d => if nullable a then alt (cat (deriv a d) b) (deriv b d)
                  else cat (deriv a d) b
  | alt a b, d => alt (deriv a d) (deriv b d)
  | star a, d => cat (deriv a d) (star a)
  | group a, d => deriv a d
  | fail, _ => fail

/-- Full (anchored) matching: fold the derivative over the input.  This is
the semantics of Go's `MatchString` on a `^...$`-anchored pattern. -/
def rmatch (e : Regex) (s : Str) : Bool :=
  nullable (s.foldl deriv e)

/-- Number of capturing groups, as counted by Go's `NumSubexp`. -/
def countGroups : Regex → Nat
  | eps => 0
  | lit _ => 0
  | anyc => 0
  | cls _ _ => 0
  | cat a b => countGroups a + countGroups b
  | alt a b => countGroups a + countGroups b
  | star a => countGroups a
  | group a => 1 + countGroups a
  | fail => 0

end Regex

/-! ## Parsing the supported Go regexp fragment

`parseRegex` models `regexp.Compile` on the sub-pattern strings that appear
inside route templates (variable patterns such as `[^/]+`, `[0-9]+`, `.*`,
alternation, grouping).  A pattern outside the fragment parses to `none`,
which the embedding treats exactly like a Go compile error. -/

/-- Characters that `regexp.QuoteMeta` escapes. -/
def isMeta (c : Char) : Bool :=
  c = '\\' || c = '.' || c = '+' || c = '*' || c = '?' || c = '(' || c = ')' ||
  c = '|' || c = '[' || c = ']' || c = '{' || c = '}' || c = '^' || c = '$'

/-- Model of `regexp.QuoteMeta`: escape every metacharacter with a backslash. -/
def quoteMeta (s : Str) : Str :=
  s.flatMap (fun c => if isMeta c then ['\\', c] else [c])

/-- Parse one item of a character class body: an escaped character, a range
`a-z`, or a single character.  Returns the covered range and the rest. -/
def parseClsItem : Str → Option ((Char × Char) × Str)
  | '\\' :: c :: rest =>
    if c.isAlphanum then none else some ((c, c), rest)
  | a :: '-' :: b :: rest =>
    if a = '\\' || b = ']' then none
    else some ((a, b), rest)
  | c :: rest =>
    if c = '\\' || c = ']' then none else some ((c, c), rest)
  | [] => none

/-- Parse the body of a character class up to the closing bracket. -/
def parseClsBody (fuel : Nat) (s : Str) : Option (List (Char × Char) × Str) :=
  match fuel with
  | 0 => none
  | fuel + 1 =>
    match s with
    | ']' :: rest => some ([], rest)
    | _ =>
      match parseClsItem s with
      | none => none
      | some (item, rest) =>
        match parseClsBody fuel rest with
        | none => none
        | some (items, rest') => some (item :: items, rest')

mutual

/-- Parse an alternation `a|b|c`. -/
def parseAlt (fuel : Nat) (s : Str) : Option (Regex × Str) :=
  match fuel with
  | 0 => none
  | fuel + 1 =>
    match parseSeq fuel s with
    | none => none
    | some (e, rest) =>
      match rest with
      | '|' :: rest' =>
        match parseAlt fuel rest' with
        | none => none
        | some (e', rest'') => some (Regex.alt e e', rest'')
      | _ => some (e, rest)

/-- Parse a concatenation of repeated atoms. -/
def parseSeq (fuel : Nat) (s : Str) : Option (Regex × Str) :=
  match fuel with
  | 0 => none
  | fuel + 1 =>
    match s with
    | [] => some (Regex.eps, [])
    | ')' :: _ => some (Regex.eps, s)
    | '|' :: _ => some (Regex.eps, s)
    | _ =>
      match parseRep fuel s with
      | none => none
      | some (e, rest) =>
        match parseSeq fuel rest with
        | none => none
        | some (e', rest') => some (Regex.cat e e', rest')

/-- Parse one atom with an optional postfix repetition operator. -/
def parseRep (fuel : Nat) (s : Str) : Option (Regex × Str) :=
  match fuel with
  | 0 => none
  | fuel + 1 =>
    match parseAtom fuel s with
    | none => none
    | some (e, rest) =>
      match rest with
      | '*' :: rest' => some (Regex.star e, rest')
      | '+' :: rest' => some (Regex.cat e (Regex.star e), rest')
      | '?' :: rest' => some (Regex.alt e Regex.eps, rest')
      | _ => some (e, rest)

/-- Parse a single atom: a group, a character class, a dot, an escaped
character, or a literal character. -/
def parseAtom (fuel : Nat) (s : Str) : Option (Regex × Str) :=
  match fuel with
  | 0 => none
  | fuel + 1 =>
    match s with
    | '(' :: '?' :: ':' :: rest =>
      match parseAlt fuel rest with
      | some (e, ')' :: rest') => some (e, rest')
      | _ => none
    | '(' :: '?' :: 'P' :: '<' :: rest =>
      match (rest.dropWhile (fun c => c ≠ '>')) with
      | '>' :: body =>
        match parseAlt fuel body with
        | some (e, ')' :: rest') => some (Regex.group e, rest')
        | _ => none
      | _ => none
    | '(' :: '?' :: _ => none
    | '(' :: rest =>
      match parseAlt fuel rest with
      | some (e, ')' :: rest') => some (Regex.group e, rest')
      | _ => none
    | '[' :: '^' :: rest =>
      match parseClsBody fuel rest with
      | some (items, rest') => some (Regex.cls true items, rest')
      | none => none
    | '[' :: rest =>
      match parseClsBody fuel rest with
      | some (items, rest') => some (Regex.cls false items, rest')
      | none => none
    | '.' :: rest => some (Regex.anyc, rest)
    | '\\' :: c :: rest =>
      if c.isAlphanum then none else some (Regex.lit c, rest)
    | c :: rest =>
      if c = ')' || c = '|' || c = '*' || c = '+' || c = '?' || c = ']' ||
         c = '{' || c = '}' || c = '$' || c = '^' then none
      else some (Regex.lit c, rest)
    | [] => none

end

/-- Model of `regexp.Compile` on a sub-pattern: parse the whole string in
the supported fragment; any leftover input or unsupported construct is a
compile error (`none`). -/
def parseRegex (s : Str) : Option Regex :=
  match parseAlt (2 * s.length + 2) s with
  | some (e, []) => some e
  | _ => none

end Mux

namespace Mux

/-! ## Template compiler (src/regexp.go)

`newRouteRegexp` is the embedding of regexp.go lines 29-135.  The compiled
Go regexp object is modelled by `CompiledRx`: the exact pattern string the
source concatenates (`srcStr`) together with its structured reading — the
alternating escaped-literal / named-group segments, the trailing literal,
the optional `[/]?`, the optional appended query default pattern and the
presence of the final `$` anchor.  Matching and submatch extraction are
defined on the structured form. -/

/-- Options passed to the template compiler (regexp.go lines 13-16). -/
structure routeRegexpOptions where
  strictSlash : Bool
  useEncodedPath : Bool
deriving Repr, DecidableEq

/-- The four template kinds (regexp.go lines 18-25). -/
inductive regexpType where
  | regexpTypePath
  | regexpTypeHost
  | regexpTypePrefixOfPath
  | regexpTypeQuery
deriving Repr, DecidableEq

open regexpType

/-- Model of Go's `%q` on the strings that appear in error messages:
wrap in double quotes, escaping backslashes and quotes. -/
def quoteS (s : Str) : Str :=
  '"' :: (s.flatMap (fun c => if c = '"' || c = '\\' then ['\\', c] else [c])) ++ ['"']

/-- Helper for `braceIndices` (regexp.go lines 262-283): walk the characters
tracking the nesting level and the position of the current first-level
opening brace, collecting `(open, close+1)` index pairs. -/
def braceIndicesAux (orig : Str) : Str → Nat → Nat → Nat → List (Nat × Nat) →
    Except Str (List (Nat × Nat))
  | [], _, level, _, acc =>
    if level ≠ 0 then .error (S "mux: unbalanced braces in " ++ quoteS orig)
    else .ok acc
  | c :: rest, i, level, idx, acc =>
    if c = '\x7b' then
      braceIndicesAux orig rest (i + 1) (level + 1) (if level + 1 = 1 then i else idx) acc
    else if c = '\x7d' then
      match level with
      | 0 => .error (S "mux: unbalanced braces in " ++ quoteS orig)
      | 1 => braceIndicesAux orig rest (i + 1) 0 idx (acc ++ [(idx, i + 1)])
      | Nat.succ (Nat.succ l) => braceIndicesAux orig rest (i + 1) (l + 1) idx acc
    else braceIndicesAux orig rest (i + 1) level idx acc

/-- `braceIndices` (regexp.go lines 262-283): the first-level brace pairs of
a template, as `(open, close+1)` position pairs; unbalanced braces error. -/
def braceIndices (s : Str) : Except Str (List (Nat × Nat)) :=
  braceIndicesAux s s 0 0 0 []

/-- Model of Go's `strings.SplitN(s, sep, 2)`: the part before the first
separator, and the part after it when the separator occurs. -/
def splitN2 : Str → Char → Str × Option Str
  | [], _ => ([], none)
  | c :: rest, sep =>
    if c = sep then ([], some rest)
    else
      let p := splitN2 rest sep
      (c :: p.1, p.2)

/-- `varGroupName` (regexp.go lines 286-288): positional capture-group name. -/
def varGroupName (idx : Nat) : Str := 'v' :: (Nat.repr idx).data

/-- One literal-then-variable segment produced by the compiler loop
(regexp.go lines 60-86): the literal before the variable, the variable
name, the sub-pattern string, and the parsed sub-pattern. -/
structure Segment where
  raw : Str
  name : Str
  pattStr : Str
  patt : Regex
deriving Repr, DecidableEq

/-- The loop of regexp.go lines 60-86: slice the template at the brace
index pairs, split each interior on the first colon into name and pattern
(defaulting the pattern by kind), reject empty names or patterns, and parse
each sub-pattern (a parse failure models the `regexp.Compile` error on the
variable's `^pattern$` validator).  Returns the segments and the trailing
literal after the last variable. -/
def processVars (tpl defaultPattern : Str) :
    List (Nat × Nat) → Nat → Except Str (List Segment × Str)
  | [], e => .ok ([], tpl.drop e)
  | (b, e2) :: rest, e =>
    let raw := (tpl.drop e).take (b - e)
    let inner := (tpl.drop (b + 1)).take (e2 - 1 - (b + 1))
    let p := splitN2 inner ':'
    let name := p.1
    let patt := match p.2 with
      | some pat => pat
      | none => defaultPattern
    if name = [] ∨ patt = [] then
      .error (S "mux: missing name or pattern in " ++ quoteS ((tpl.drop b).take (e2 - b)))
    else
      match parseRegex patt with
      | none => .error (S "mux: error parsing regexp " ++ quoteS patt)
      | some ast =>
        match processVars tpl defaultPattern rest e2 with
        | .error msg => .error msg
        | .ok (segs, tail) =>
          .ok ({ raw := raw, name := name, pattStr := patt, patt := ast } :: segs, tail)

/-- The compiled regular expression of a route template: the pattern string
exactly as regexp.go concatenates it, plus its structured reading used for
the matching semantics. -/
structure CompiledRx where
  srcStr : Str
  segs : List (Str × Regex)
  tail : Str
  slashQ : Bool
  extra : Option Regex
  endAnchor : Bool
deriving Repr

/-- Model of `regexp.NumSubexp` on the compiled pattern: one capturing group
per variable (the `(?P<vN>...)` wrappers) plus any capturing groups inside
the caller-supplied sub-patterns. -/
def CompiledRx.numSubexp (c : CompiledRx) : Nat :=
  c.segs.length + (c.segs.map (fun sg => sg.2.countGroups)).sum +
    (match c.extra with
     | some e => e.countGroups
     | none => 0)

/-- A compiled per-variable validator (`regexp.Compile("^" + patt + "$")`,
regexp.go line 82): its source string and its parsed pattern, matched
anchored. -/
structure RegexV where
  str : Str
  ast : Regex
deriving Repr

/-- `routeRegexp` (regexp.go lines 138-155). -/
structure routeRegexp where
  template : Str
  regexpType : regexpType
  options : routeRegexpOptions
  regexp : CompiledRx
  reverse : Str
  varsN : List Str
  varsR : List RegexV
  wildcardHostPort : Bool
deriving Repr

/-- Does the string end in a slash (`strings.HasSuffix(tpl, "/")`)? -/
def endsWithSlash (s : Str) : Bool := s.getLast? = some '/'

/-- The per-kind default variable pattern (regexp.go lines 37-42). -/
def defaultPatternFor (typ : regexpType) : Str :=
  if typ = regexpTypeQuery then S ".*"
  else if typ = regexpTypeHost then S "[^.]+"
  else S "[^/]+"

/-- Only the Path kind keeps `strictSlash` (regexp.go lines 44-46). -/
def adjustOptions (typ : regexpType) (options0 : routeRegexpOptions) : routeRegexpOptions :=
  if typ ≠ regexpTypePath then { options0 with strictSlash := false } else options0

/-- Strip the trailing slash when the strict-slash flag fired
(regexp.go lines 48-52). -/
def stripEndSlash (strip : Bool) (tpl : Str) : Str :=
  if strip then tpl.dropLast else tpl

/-- Is the appended query default pattern needed (regexp.go lines 93-98)?
True when the kind is Query and the original template's value side is
empty. -/
def extraBFor (typ : regexpType) (template : Str) : Bool :=
  decide (typ = regexpTypeQuery) && decide ((splitN2 template '=').2 = some [])

/-- The pattern string exactly as regexp.go lines 55-101 concatenate it:
`^`, then per segment the escaped literal and the named group, then the
escaped trailing literal, `[/]?` under strict slash, the appended query
default, and the `$` anchor for every kind but Prefix. -/
def mkPatternStr (typ : regexpType) (options : routeRegexpOptions) (template : Str)
    (segs : List Segment) (tailRaw : Str) : Str :=
  '^' :: (segs.enum.map (fun p =>
      quoteMeta p.2.raw ++ S "(?P<" ++ varGroupName p.1 ++ S ">" ++
        p.2.pattStr ++ S ")")).flatten
    ++ quoteMeta tailRaw
    ++ (if options.strictSlash then S "[/]?" else [])
    ++ (if extraBFor typ template then defaultPatternFor typ else [])
    ++ (if typ ≠ regexpTypePrefixOfPath then S "$" else [])

/-- The parsed form of the appended query default pattern, when present. -/
def mkExtra (typ : regexpType) (template : Str) : Option Regex :=
  if extraBFor typ template then parseRegex (defaultPatternFor typ) else none

/-- The structured compiled pattern (the model of `regexp.Compile` on
`mkPatternStr`). -/
def mkCompiled (typ : regexpType) (options : routeRegexpOptions) (template : Str)
    (segs : List Segment) (tailRaw : Str) : CompiledRx :=
  { srcStr := mkPatternStr typ options template segs tailRaw
    segs := segs.map (fun sg => (sg.raw, sg.patt))
    tail := tailRaw
    slashQ := options.strictSlash
    extra := mkExtra typ template
    endAnchor := typ ≠ regexpTypePrefixOfPath }

/-- The reverse template (regexp.go lines 77-78 and 109-112): literals with
`%s` placeholders, the trailing literal, and the re-appended slash. -/
def mkReverse (segs : List Segment) (tailRaw : Str) (endSlash : Bool) : Str :=
  (segs.map (fun sg => sg.raw ++ S "%s")).flatten ++ tailRaw ++
    (if endSlash then S "/" else [])

/-- `wildcardHostPort` (regexp.go lines 103-108): a Host pattern without a
colon. -/
def mkWildcard (typ : regexpType) (options : routeRegexpOptions) (template : Str)
    (segs : List Segment) (tailRaw : Str) : Bool :=
  decide (typ = regexpTypeHost) && ¬ (mkPatternStr typ options template segs tailRaw).contains ':'

/-- The descriptor `newRouteRegexp` returns on success
(regexp.go lines 125-134). -/
def mkRR (template : Str) (typ : regexpType) (options : routeRegexpOptions)
    (endSlash : Bool) (segs : List Segment) (tailRaw : Str) : routeRegexp :=
  { template := template
    regexpType := typ
    options := options
    regexp := mkCompiled typ options template segs tailRaw
    reverse := mkReverse segs tailRaw endSlash
    varsN := segs.map (fun sg => sg.name)
    varsR := segs.map (fun sg => { str := '^' :: sg.pattStr ++ S "$", ast := sg.patt })
    wildcardHostPort := mkWildcard typ options template segs tailRaw }

/-- The tail of `newRouteRegexp` after the variable loop (regexp.go lines
87-134): the query-template indexing (which panics in Go when a query
template has no `=`; the panic is modelled as an error), and the
capture-group count check (the panic at lines 120-123). -/
def assembleRR (template : Str) (typ : regexpType) (options : routeRegexpOptions)
    (endSlash : Bool) (nIdx : Nat) (segs : List Segment) (tailRaw : Str) :
    Except Str routeRegexp :=
  if typ = regexpTypeQuery ∧ (splitN2 template '=').2 = none then
    .error (S "mux: panic: index out of range in query template")
  else if (mkCompiled typ options template segs tailRaw).numSubexp ≠ nIdx then
    .error (S "mux: panic: route contains capture groups in its regexp; only non-capturing groups are accepted")
  else
    .ok (mkRR template typ options endSlash segs tailRaw)

/-- `newRouteRegexp` (regexp.go lines 29-135): parse the brace pairs, adjust
`strictSlash` (only the Path kind keeps it, line 44), strip a trailing slash
under strictSlash remembering to re-append it in the reverse template,
build the segments, and assemble the descriptor. -/
def newRouteRegexp (tpl0 : Str) (typ : regexpType) (options0 : routeRegexpOptions) :
    Except Str routeRegexp :=
  match braceIndices tpl0 with
  | .error e => .error e
  | .ok idxs =>
    let options := adjustOptions typ options0
    let endSlash : Bool := options.strictSlash && endsWithSlash tpl0
    match processVars (stripEndSlash endSlash tpl0) (defaultPatternFor typ) idxs 0 with
    | .error e => .error e
    | .ok (segs, tailRaw) => assembleRR tpl0 typ options endSlash idxs.length segs tailRaw

end Mux

namespace Mux

open regexpType

/-! ## Matching and submatch extraction

Go's `MatchString` / `FindStringSubmatchIndex` on a compiled route pattern
are modelled on the structured form: consume each escaped literal, choose a
match for each variable's group, consume the trailing literal, the optional
`[/]?` and the optional appended query default, and require the end of the
input exactly when the pattern carries the final `$` anchor (every kind but
Prefix).  Group candidates are tried longest first, which is Go's
leftmost-first preference for the greedy sub-patterns route templates use
(`[^/]+`, `[^.]+`, `[0-9]+`, `.*`). -/

/-- All ways to split a string into a prefix and a suffix, longest prefix
first. -/
def splits (s : Str) : List (Str × Str) :=
  (List.range (s.length + 1)).reverse.map (fun n => (s.take n, s.drop n))

/-- Match the part of the pattern after the last variable group: the
trailing literal, then `[/]?` when present, then the appended query default
when present, then the `$` anchor when present. -/
def finishOk (tail : Str) (slashQ : Bool) (extra : Option Regex) (endAnchor : Bool)
    (s : Str) : Bool :=
  tail.isPrefixOf s &&
    (let r := s.drop tail.length
     let cands : List Str :=
       if slashQ then
         match r with
         | '/' :: r' => [r', r]
         | _ => [r]
       else [r]
     cands.any (fun r' =>
       match extra with
       | none => if endAnchor then r'.isEmpty else true
       | some e =>
         if endAnchor then Regex.rmatch e r'
         else (splits r').any (fun p => Regex.rmatch e p.1)))

/-- Walk the literal/group segments of a compiled pattern over the input,
returning the first (in Go's greedy preference order) list of captured
group values, or `none` when the pattern does not match. -/
def extractSegs : List (Str × Regex) → Str → Bool → Option Regex → Bool → Str →
    Option (List Str)
  | [], tail, sq, extra, ea, s => if finishOk tail sq extra ea s then some [] else none
  | (raw, e) :: rest, tail, sq, extra, ea, s =>
    if raw.isPrefixOf s then
      (splits (s.drop raw.length)).findSome? (fun p =>
        if Regex.rmatch e p.1 then
          match extractSegs rest tail sq extra ea p.2 with
          | some out => some (p.1 :: out)
          | none => none
        else none)
    else none

/-- Model of `FindStringSubmatchIndex` followed by slicing out the capture
groups: the captured value of each variable, in order. -/
def CompiledRx.findSubmatch (c : CompiledRx) (s : Str) : Option (List Str) :=
  extractSegs c.segs c.tail c.slashQ c.extra c.endAnchor s

/-- Model of `MatchString` on a compiled route pattern. -/
def CompiledRx.matchString (c : CompiledRx) (s : Str) : Bool :=
  (c.findSubmatch s).isSome

/-! ## Reverse URL building (`routeRegexp.url`, regexp.go lines 181-205) -/

/-- Go map lookup on a pairs-list model of `map[string]string`. -/
def lookupVal (values : List (Str × Str)) (k : Str) : Option Str :=
  (values.find? (fun p => p.1 = k)).map (fun p => p.2)

/-- Upper-case hex digit of a value below 16, as `url.QueryEscape` emits. -/
def hexDigitUpper (n : Nat) : Char :=
  if n < 10 then Char.ofNat ('0'.toNat + n) else Char.ofNat ('A'.toNat + n - 10)

/-- Model of `url.QueryEscape` on ASCII strings: keep alphanumerics and
`-_.~`, turn a space into `+`, percent-encode everything else. -/
def queryEscape (s : Str) : Str :=
  s.flatMap (fun c =>
    if c = ' ' then ['+']
    else if c.isAlphanum || c = '-' || c = '_' || c = '.' || c = '~' then [c]
    else ['%', hexDigitUpper (c.toNat / 16 % 16), hexDigitUpper (c.toNat % 16)])

/-- Model of `fmt.Sprintf` on the reverse templates the compiler builds:
each `%s` takes the next argument, `%%` prints a percent; a missing
argument prints Go's `%!s(MISSING)`. -/
def sprintfS : Str → List Str → Str
  | [], _ => []
  | [c], _ => [c]
  | c :: d :: rest, args =>
    if c = '%' ∧ d = 's' then
      match args with
      | a :: args' => a ++ sprintfS rest args'
      | [] => S "%!s(MISSING)" ++ sprintfS rest []
    else if c = '%' ∧ d = '%' then '%' :: sprintfS rest args
    else c :: sprintfS (d :: rest) args

/-- The first loop of `routeRegexp.url` (regexp.go lines 182-192): look up
every variable of the route in the supplied map (query-escaping the value
for Query kind); a missing variable is an error. -/
def collectUrlValues (typ : regexpType) (varsN : List Str) (values : List (Str × Str)) :
    Except Str (List Str) :=
  match varsN with
  | [] => .ok []
  | v :: vs =>
    match lookupVal values v with
    | none => .error (S "mux: missing route variable " ++ quoteS v)
    | some value =>
      let value := if typ = regexpTypeQuery then queryEscape value else value
      match collectUrlValues typ vs values with
      | .error e => .error e
      | .ok rest => .ok (value :: rest)

/-- The fallback loop of `routeRegexp.url` (regexp.go lines 196-202): the
first variable, in order, whose supplied value fails its own validator,
together with the validator's pattern string.  A key missing from the map
reads as the empty string, as a Go map read does. -/
def firstFailing (varsN : List Str) (varsR : List RegexV) (values : List (Str × Str)) :
    Option (Str × Str) :=
  (varsN.zip varsR).findSome? (fun p =>
    let value := (lookupVal values p.1).getD []
    if Regex.rmatch p.2.ast value then none else some (value, p.2.str))

/-- `routeRegexp.url` (regexp.go lines 181-205): substitute the variable
values into the reverse template; if the result fails the compiled pattern,
check each variable against its own validator to produce the precise
per-variable error — note the message prints the offending value, not the
variable name — and when every individual validator passes, fall through
and return the (non-matching) result with no error, as the source does. -/
def routeRegexp.url (r : routeRegexp) (values : List (Str × Str)) : Except Str Str :=
  match collectUrlValues r.regexpType r.varsN values with
  | .error e => .error e
  | .ok urlValues =>
    let rv := sprintfS r.reverse urlValues
    if r.regexp.matchString rv then .ok rv
    else
      match firstFailing r.varsN r.varsR values with
      | some p =>
        .error (S "mux: variable " ++ quoteS p.1 ++ S " doesn't match, expected " ++ quoteS p.2)
      | none => .ok rv

end Mux

namespace Mux

open regexpType

/-! ## Requests, matchers, routes and routers

The HTTP layer is out of scope; a request is modelled by the fields the
router reads: method, host, path (raw and escaped), raw query, headers,
scheme and TLS presence (src/matcher.go, src/regexp.go).  A handler is an
opaque identifier, except for the redirect handler the strict-slash logic
builds.  Route and Router are the structures of src/mux.go and the unnamed
route file; a Router nested as a matcher (subrouting) makes the types
mutually recursive, realized as a nested inductive through the generic
`RouteG`/`RouterG` structures.  The shared `namedRoutes` registry —
a `map[string]*Route` shared by pointer across the whole tree — is
modelled as an explicit association list threaded through `Name`. -/

/-- Variable maps (`map[string]string`). -/
abbrev VarMap := List (Str × Str)

/-- Go map assignment `m[k] = v`: overwrite the entry when present,
otherwise add it. -/
def mapInsertP {α : Type} (m : List (Str × α)) (k : Str) (v : α) : List (Str × α) :=
  if (m.find? (fun p => p.1 = k)).isSome then
    m.map (fun p => if p.1 = k then (k, v) else p)
  else m ++ [(k, v)]

/-- An HTTP handler: an opaque identifier for user handlers, plus the
permanent-redirect handler built by the strict-slash logic
(`http.RedirectHandler(u.String(), http.StatusMovedPermanently)`). -/
inductive Handler where
  | user (id : Nat)
  | redirect (loc : Str)
deriving Repr, DecidableEq

/-- The two sentinel match errors of src/mux.go lines 8-13. -/
inductive MatchErr where
  | methodMismatch
  | notFound
deriving Repr, DecidableEq

/-- The request fields the router reads.  Server requests carry relative
URLs, so `getHost` reads `r.Host` (regexp.go lines 352-358); with the
transport out of scope the URL/Host distinction is collapsed into one
field. -/
structure Request where
  method : Str
  host : Str
  urlPath : Str
  escapedPath : Str
  rawQuery : Str
  urlScheme : Str
  tls : Bool
  headers : List (Str × Str)
deriving Repr

/-- `getHost` (regexp.go lines 352-358). -/
def getHost (req : Request) : Str := req.host

/-- `routeRegexpGroup` (regexp.go lines 295-299). -/
structure routeRegexpGroup where
  host : Option routeRegexp
  path : Option routeRegexp
  queries : List routeRegexp
deriving Repr

/-- The `routeConf` configuration shared between Router and Route
(mux.go lines 37-57), generic in the matcher type to break the
Route/Router/Matcher recursion. -/
structure routeConfG (M : Type) where
  useEncodedPath : Bool
  strictSlash : Bool
  skipClean : Bool
  regexp : routeRegexpGroup
  matchers : List M
  buildScheme : Str
  buildVarsFunc : Option (VarMap → VarMap)

/-- `Route` (unnamed route file, lines 12-28), generic in the matcher
type.  The `namedRoutes` registry pointer is modelled externally. -/
structure RouteG (M : Type) where
  handler : Option Handler
  buildOnly : Bool
  name : Str
  err : Option Str
  conf : routeConfG M

/-- `Router` (mux.go lines 20-34), generic in the matcher type. -/
structure RouterG (M : Type) where
  NotFoundHandler : Option Handler
  MethodNotAllowedHandler : Option Handler
  routes : List (RouteG M)
  middlewares : List (Handler → Handler)
  conf : routeConfG M

/-- The matcher variants of src/matcher.go, plus the two variants realized
by `routeRegexp` and by a nested `Router` (subrouting).  `MatcherFunc`
(a raw predicate over the mutable match) is not modelled: a function field
over `RouteMatch` would make the type non-positive, and no claim involves
custom matcher functions. -/
inductive Matcher where
  | methodM (ms : List Str)
  | schemeM (ss : List Str)
  | headerM (pairs : List (Str × Str))
  | headerRegexM (pairs : List (Str × Regex))
  | regexpM (rr : routeRegexp)
  | routerM (r : RouterG Matcher)

/-- Routes and routers with the concrete matcher type. -/
abbrev Route := RouteG Matcher

/-- See `Route`. -/
abbrev Router := RouterG Matcher

/-- `RouteMatch` (context.go lines 8-16). -/
structure RouteMatch where
  route : Option Route
  handler : Option Handler
  vars : Option VarMap
  matchErr : Option MatchErr

/-- The all-nil `RouteMatch` a dispatch starts from (`var match RouteMatch`). -/
def emptyMatch : RouteMatch :=
  { route := none, handler := none, vars := none, matchErr := none }

/-- Upper-case an ASCII string (`strings.ToUpper`). -/
def toUpperAscii (s : Str) : Str := s.map Char.toUpper

/-- Modelled from the spec: `matchInArray` lives in helpers.go, which is
not among the provided sources; spec section 4.2 says "MethodSet performs
case-insensitive containment against an upper-cased method list", so
containment is tested up to ASCII case. -/
def matchInArray (arr : List Str) (value : Str) : Bool :=
  arr.any (fun v => toUpperAscii v = toUpperAscii value)

/-- Modelled from the spec: `matchMapWithString` lives in helpers.go, which
is not among the provided sources; spec section 4.2: "HeaderEquals ...
a configured empty expected value matches any value as long as the header
key exists". -/
def matchMapWithString (m : List (Str × Str)) (headers : List (Str × Str)) : Bool :=
  m.all (fun p =>
    match lookupVal headers p.1 with
    | none => false
    | some v => p.2 = [] || v = p.2)

/-- Modelled from the spec: `matchMapWithRegex` lives in helpers.go, which
is not among the provided sources; like `matchMapWithString` with the
expected value matched as an (unanchored in Go, here anchored as used)
regular expression. -/
def matchMapWithRegex (m : List (Str × Regex)) (headers : List (Str × Str)) : Bool :=
  m.all (fun p =>
    match lookupVal headers p.1 with
    | none => false
    | some v => Regex.rmatch p.2 v)

/-- Hexadecimal value of one digit character, if any. -/
def hexVal (c : Char) : Option Nat :=
  if '0' ≤ c ∧ c ≤ '9' then some (c.toNat - '0'.toNat)
  else if 'a' ≤ c ∧ c ≤ 'f' then some (c.toNat - 'a'.toNat + 10)
  else if 'A' ≤ c ∧ c ≤ 'F' then some (c.toNat - 'A'.toNat + 10)
  else none

/-- Model of `url.QueryUnescape` on ASCII strings: `+` becomes a space,
`%XX` decodes, an invalid escape is an error (`none`). -/
def queryUnescape : Str → Option Str
  | [] => some []
  | '+' :: rest => (queryUnescape rest).map (fun r => ' ' :: r)
  | '%' :: a :: b :: rest =>
    match hexVal a, hexVal b with
    | some ha, some hb => (queryUnescape rest).map (fun r => Char.ofNat (16 * ha + hb) :: r)
    | _, _ => none
  | '%' :: _ => none
  | c :: rest => (queryUnescape rest).map (fun r => c :: r)

/-- One step of `findFirstQueryKey` (regexp.go lines 221-255): take the
chunk up to the first `&` or `;`, and the rest of the query. -/
def queryChunk (query : Str) : Str × Str :=
  let i := query.findIdx (fun c => c = '&' || c = ';')
  if i < query.length then (query.take i, query.drop (i + 1)) else (query, [])

/-- `findFirstQueryKey` (regexp.go lines 221-255): scan the raw query,
splitting on `&`/`;`, percent-decoding key and value independently, and
return the first value stored under the wanted key. -/
def findFirstQueryKey (fuel : Nat) (query key : Str) : Option Str :=
  match fuel with
  | 0 => none
  | fuel + 1 =>
    match query with
    | [] => none
    | _ =>
      let p := queryChunk query
      let foundKey := p.1
      let rest := p.2
      if foundKey = [] then findFirstQueryKey fuel rest key
      else
        let q := splitN2 foundKey '='
        let keyPart := q.1
        let valuePart := (q.2).getD []
        if keyPart.length < key.length then findFirstQueryKey fuel rest key
        else
          match queryUnescape keyPart with
          | none => findFirstQueryKey fuel rest key
          | some keyString =>
            if keyString ≠ key then findFirstQueryKey fuel rest key
            else
              match queryUnescape valuePart with
              | none => findFirstQueryKey fuel rest key
              | some valueString => some valueString

/-- `routeRegexp.getURLQuery` (regexp.go lines 207-218). -/
def routeRegexp.getURLQuery (r : routeRegexp) (req : Request) : Str :=
  if r.regexpType ≠ regexpTypeQuery then []
  else
    let templateKey := (splitN2 r.template '=').1
    match findFirstQueryKey (req.rawQuery.length + 1) req.rawQuery templateKey with
    | some val => templateKey ++ '=' :: val
    | none => []

/-- The host string a Host descriptor is matched against: the request host,
port-stripped when the descriptor is port-wildcarded (regexp.go lines
159-167 and 303-311). -/
def hostForMatch (r : routeRegexp) (req : Request) : Str :=
  let host := getHost req
  if r.wildcardHostPort ∧ host.contains ':' then host.takeWhile (fun c => c ≠ ':')
  else host

/-- `routeRegexp.Match` (regexp.go lines 158-178): match the request host,
query string or path against the compiled pattern.  The request never
changes, so the Go `match` parameter is unused there and omitted here. -/
def routeRegexp.MatchReq (r : routeRegexp) (req : Request) : Bool :=
  if r.regexpType = regexpTypeHost then
    r.regexp.matchString (hostForMatch r req)
  else if r.regexpType = regexpTypeQuery then
    r.regexp.matchString (r.getURLQuery req)
  else
    let path := if r.options.useEncodedPath then req.escapedPath else req.urlPath
    r.regexp.matchString path

/-- `extractVars` (regexp.go lines 360-364): store each captured value
under its variable name. -/
def extractVarsInto (names : List Str) (values : List Str) (out : VarMap) : VarMap :=
  (names.zip values).foldl (fun m p => mapInsertP m p.1 p.2) out

/-- `routeRegexpGroup.setMatch` (regexp.go lines 302-350): once a route has
matched, extract host, path and query variables into the match, and build
the strict-slash permanent-redirect handler when the path's trailing slash
disagrees with the template's. -/
def routeRegexpGroup.setMatch (v : routeRegexpGroup) (req : Request) (m : RouteMatch)
    (r : Route) : RouteMatch :=
  let m := match v.host with
    | some h =>
      match h.regexp.findSubmatch (hostForMatch h req) with
      | some outs => { m with vars := some (extractVarsInto h.varsN outs (m.vars.getD [])) }
      | none => m
    | none => m
  let path := if r.conf.useEncodedPath then req.escapedPath else req.urlPath
  let m := match v.path with
    | some p =>
      match p.regexp.findSubmatch path with
      | some outs =>
        let m := { m with vars := some (extractVarsInto p.varsN outs (m.vars.getD [])) }
        if p.options.strictSlash then
          let p1 := endsWithSlash path
          let p2 := endsWithSlash p.template
          if p1 ≠ p2 then
            let newPath := if p1 = true then path.dropLast else path ++ ['/']
            let loc := newPath ++ (if req.rawQuery ≠ [] then '?' :: req.rawQuery else [])
            { m with handler := some (Handler.redirect loc) }
          else m
        else m
      | none => m
    | none => m
  v.queries.foldl (fun m q =>
    match q.regexp.findSubmatch (q.getURLQuery req) with
    | some outs => { m with vars := some (extractVarsInto q.varsN outs (m.vars.getD [])) }
    | none => m) m

/-- The Go type switch `m.(methodMatcher)` of the route matching loop. -/
def isMethodMatcher : Matcher → Bool
  | .methodM _ => true
  | _ => false

/-- Outcome of the matcher loop of `Route.Match` (unnamed route file,
lines 44-60): either some non-method matcher failed and the whole match
aborts, or all matchers were evaluated, with a pending method mismatch
when some method matcher failed. -/
inductive MatchersOut where
  | aborted (m : RouteMatch)
  | finished (m : RouteMatch) (pending : Option MatchErr)

mutual

/-- The single-matcher predicate (src/matcher.go; `Router.Match` for the
nested-router variant).  Returns the verdict and the possibly updated
match. -/
def matcherMatch : Matcher → Request → RouteMatch → Bool × RouteMatch
  | .methodM ms, req, m => (matchInArray ms req.method, m)
  | .schemeM ss, req, m =>
    let scheme := if req.urlScheme = [] then (if req.tls then S "https" else S "http")
                  else req.urlScheme
    (matchInArray ss scheme, m)
  | .headerM pairs, req, m => (matchMapWithString pairs req.headers, m)
  | .headerRegexM pairs, req, m => (matchMapWithRegex pairs req.headers, m)
  | .regexpM rr, req, m => (rr.MatchReq req, m)
  | .routerM R, req, m => routerMatch R req m

/-- The matcher loop of `Route.Match` (unnamed route file, lines 44-60):
a failing method matcher records a pending mismatch and continues; any
other failing matcher clears a carried-over `ErrNotFound` and aborts. -/
def matchersGo : List Matcher → Request → RouteMatch → Option MatchErr → MatchersOut
  | [], _, m, pending => MatchersOut.finished m pending
  | mt :: rest, req, m, pending =>
    let res := matcherMatch mt req m
    if res.1 then matchersGo rest req res.2 pending
    else if isMethodMatcher mt then
      matchersGo rest req res.2 (some MatchErr.methodMismatch)
    else
      let m' := if res.2.matchErr = some MatchErr.notFound then { res.2 with matchErr := none }
                else res.2
      MatchersOut.aborted m'

/-- `Route.Match` (unnamed route file, lines 36-85). -/
def routeMatch (r : Route) (req : Request) (m : RouteMatch) : Bool × RouteMatch :=
  if r.buildOnly || r.err.isSome then (false, m)
  else
    match matchersGo r.conf.matchers req m none with
    | .aborted m' => (false, m')
    | .finished m' pending =>
      match pending with
      | some e => (false, { m' with matchErr := some e })
      | none =>
        let m1 := if m'.matchErr = some MatchErr.methodMismatch ∧ r.handler.isSome then
                    { m' with matchErr := none, handler := r.handler }
                  else m'
        let m2 := if m1.route.isNone then { m1 with route := some r } else m1
        let m3 := if m2.handler.isNone then { m2 with handler := r.handler } else m2
        let m4 := if m3.vars.isNone then { m3 with vars := some [] } else m3
        (true, r.conf.regexp.setMatch req m4 r)

/-- The route loop of `Router.Match` (mux.go lines 89-99). -/
def tryRoutes : List Route → Request → RouteMatch → Bool × RouteMatch
  | [], _, m => (false, m)
  | r :: rest, req, m =>
    let res := routeMatch r req m
    if res.1 then (true, res.2) else tryRoutes rest req res.2

/-- `Router.Match` (mux.go lines 88-118): first matching route wins; on a
clean success the handler is wrapped in the middleware chain (first
registered outermost); otherwise the method-not-allowed or not-found
fallbacks apply. -/
def routerMatch (R : Router) (req : Request) (m : RouteMatch) : Bool × RouteMatch :=
  let res := tryRoutes R.routes req m
  if res.1 then
    if res.2.matchErr = none then
      (true, { res.2 with
               handler := res.2.handler.map (fun h => R.middlewares.foldr (fun mw acc => mw acc) h) })
    else (true, res.2)
  else if res.2.matchErr = some MatchErr.methodMismatch then
    match R.MethodNotAllowedHandler with
    | some h => (true, { res.2 with handler := some h })
    | none => (false, res.2)
  else
    match R.NotFoundHandler with
    | some h => (true, { res.2 with handler := some h, matchErr := some MatchErr.notFound })
    | none => (false, { res.2 with matchErr := some MatchErr.notFound })

end

end Mux

namespace Mux

open regexpType

/-! ## The construction surface (builder methods)

Go's builders mutate a `*Route` / `*Router` in place; the embedding is
functional, so each builder returns the updated value, and a scenario
attaches a finished subrouter where Go attaches a pointer that later calls
mutate.  Nothing reads the intermediate states in between, so the results
coincide. -/

/-- `strings.TrimRight(s, "/")`. -/
def trimRightSlashes (s : Str) : Str :=
  (s.reverse.dropWhile (fun c => c = '/')).reverse

/-- Modelled from the spec: `uniqueVars` lives in helpers.go, which is not
among the provided sources; spec section 7 lists "duplicate variable name
across host/path/query" among the construction errors. -/
def uniqueVars (s1 s2 : List Str) : Except Str Unit :=
  match s1.find? (fun v => s2.contains v) with
  | some v => .error (S "mux: duplicated route variable " ++ quoteS v)
  | none => .ok ()

/-- Go's `%v` of a `[]string`: the elements joined by spaces in brackets. -/
def fmtPairs (pairs : List Str) : Str :=
  '[' :: (pairs.foldr (fun x acc => if acc = [']'] then x ++ acc else x ++ ' ' :: acc) [']'])

/-- Consecutive pairs of a flat key/value list. -/
def pairsToMap : List Str → List (Str × Str)
  | a :: b :: rest => (a, b) :: pairsToMap rest
  | _ => []

/-- Modelled from the spec: `mapFromPairsToString` lives in helpers.go,
which is not among the provided sources; spec sections 6-7: a pairs list
must have even length ("non-multiple-of-two pair lists" are construction
errors), and the pairs become a key→value map. -/
def mapFromPairsToString (pairs : List Str) : Except Str (List (Str × Str)) :=
  if pairs.length % 2 ≠ 0 then
    .error (S "mux: number of parameters must be multiple of 2, got " ++ fmtPairs pairs)
  else .ok (pairsToMap pairs)

/-- `Route.addMatcher` (unnamed route file, lines 147-152). -/
def RouteG.addMatcher (r : Route) (m : Matcher) : Route :=
  if r.err = none then { r with conf := { r.conf with matchers := r.conf.matchers ++ [m] } }
  else r

/-- `Route.addRegexpMatcher` (unnamed route file, lines 155-200): check the
leading slash for path kinds, prepend the parent's accumulated path
template (trailing slashes trimmed), compile, check variable uniqueness
against the other descriptors, store the descriptor in its slot and append
it as a matcher.  Returns the updated route, or the error the caller
records. -/
def RouteG.addRegexpMatcherE (r : Route) (tpl0 : Str) (typ : regexpType) :
    Except Str Route :=
  match r.err with
  | some e => .error e
  | none =>
    let pathKind : Bool := typ = regexpTypePath || typ = regexpTypePrefixOfPath
    if pathKind ∧ tpl0 ≠ [] ∧ tpl0.head? ≠ some '/' then
      .error (S "mux: path must start with a slash, got " ++ quoteS tpl0)
    else
      let tpl :=
        if pathKind then
          match r.conf.regexp.path with
          | some p => trimRightSlashes p.template ++ tpl0
          | none => tpl0
        else tpl0
      match newRouteRegexp tpl typ
          { strictSlash := r.conf.strictSlash, useEncodedPath := r.conf.useEncodedPath } with
      | .error e => .error e
      | .ok rr =>
        match (r.conf.regexp.queries.map (fun q => uniqueVars rr.varsN q.varsN)).foldl
            (fun acc res =>
              match acc with
              | Except.error e => Except.error e
              | Except.ok _ => res)
            (Except.ok () : Except Str Unit) with
        | .error e => .error e
        | .ok _ =>
          if typ = regexpTypeHost then
            match (match r.conf.regexp.path with
                   | some p => uniqueVars rr.varsN p.varsN
                   | none => .ok ()) with
            | .error e => .error e
            | .ok _ =>
              .ok ((({ r with conf :=
                { r.conf with regexp := { r.conf.regexp with host := some rr } } } : Route)).addMatcher
                  (Matcher.regexpM rr))
          else
            match (match r.conf.regexp.host with
                   | some h => uniqueVars rr.varsN h.varsN
                   | none => .ok ()) with
            | .error e => .error e
            | .ok _ =>
              if typ = regexpTypeQuery then
                .ok ((({ r with conf :=
                  { r.conf with regexp :=
                    { r.conf.regexp with queries := r.conf.regexp.queries ++ [rr] } } } : Route)).addMatcher
                    (Matcher.regexpM rr))
              else
                .ok ((({ r with conf :=
                  { r.conf with regexp := { r.conf.regexp with path := some rr } } } : Route)).addMatcher
                    (Matcher.regexpM rr))

/-- `Route.Path` (unnamed route file, lines 308-311): `r.err =
r.addRegexpMatcher(tpl, regexpTypePath)`. -/
def RouteG.Path (r : Route) (tpl : Str) : Route :=
  match r.addRegexpMatcherE tpl regexpTypePath with
  | .ok r' => r'
  | .error e => { r with err := some e }

/-- `Route.PathPrefix` (unnamed route file, lines 316-319). -/
def RouteG.PathPrefix (r : Route) (tpl : Str) : Route :=
  match r.addRegexpMatcherE tpl regexpTypePrefixOfPath with
  | .ok r' => r'
  | .error e => { r with err := some e }

/-- `Route.Host` (unnamed route file, lines 258-261). -/
def RouteG.Host (r : Route) (tpl : Str) : Route :=
  match r.addRegexpMatcherE tpl regexpTypeHost with
  | .ok r' => r'
  | .error e => { r with err := some e }

/-- The loop of `Route.Queries` (unnamed route file, lines 342-346):
register each `key=value` pair, stopping at (and recording) the first
error. -/
def queriesLoop : Route → List (Str × Str) → Route
  | r, [] => r
  | r, (k, v) :: rest =>
    match r.addRegexpMatcherE (k ++ '=' :: v) regexpTypeQuery with
    | .ok r' => queriesLoop r' rest
    | .error e => { r with err := some e }

/-- `Route.Queries` (unnamed route file, lines 335-349).  The second
component models the returned `*Route` pointer: on an odd-length pairs
list the source records the error on the route and returns `nil`
(modelled as `none`); otherwise it returns the route itself. -/
def RouteG.Queries (r : Route) (pairs : List Str) : Route × Option Route :=
  if pairs.length % 2 ≠ 0 then
    ({ r with err := some (S "mux: number of parameters must be multiple of 2, got " ++
        fmtPairs pairs) }, none)
  else
    let r' := queriesLoop r (pairsToMap pairs)
    (r', some r')

/-- `Route.Methods` (unnamed route file, lines 282-287): upper-case the
configured methods, then add a method matcher. -/
def RouteG.Methods (r : Route) (methods : List Str) : Route :=
  r.addMatcher (Matcher.methodM (methods.map toUpperAscii))

/-- `Route.Schemes` (unnamed route file, lines 352-360): lower-case the
schemes, remember the first as the build scheme, add a scheme matcher. -/
def RouteG.Schemes (r : Route) (schemes : List Str) : Route :=
  let schemes := schemes.map (fun s => s.map Char.toLower)
  let r := match schemes with
    | s :: _ => { r with conf := { r.conf with buildScheme := s } }
    | [] => r
  r.addMatcher (Matcher.schemeM schemes)

/-- `Route.Handler` (unnamed route file, lines 105-110). -/
def RouteG.Handler (r : Route) (handler : Handler) : Route :=
  if r.err = none then { r with handler := some handler } else r

/-- `Route.BuildOnly` (unnamed route file, lines 97-100). -/
def RouteG.BuildOnly (r : Route) : Route :=
  { r with buildOnly := true }

/-- `Route.Name` (unnamed route file, lines 124-135), with the tree-shared
`namedRoutes` map passed and returned explicitly (Go shares it by pointer
across the whole router tree): naming an already-named route records an
error; otherwise the name is set and the registry entry written —
overwriting whatever route held that name before. -/
def RouteG.Name (r : Route) (name : Str) (reg : List (Str × Route)) :
    Route × List (Str × Route) :=
  let r := if r.name ≠ [] then
      { r with err := some (S "mux: route already has name " ++ quoteS r.name ++
          S ", can't set " ++ quoteS name) }
    else r
  if r.err = none then
    let r := { r with name := name }
    (r, mapInsertP reg name r)
  else (r, reg)

/-- The empty `routeConf` a fresh root router starts with. -/
def defaultConf : routeConfG Matcher :=
  { useEncodedPath := false, strictSlash := false, skipClean := false
    regexp := { host := none, path := none, queries := [] }
    matchers := [], buildScheme := [], buildVarsFunc := none }

/-- `NewRouter` (mux.go lines 16-18).  The fresh shared `namedRoutes`
registry is the empty association list, threaded externally. -/
def NewRouter : Router :=
  { NotFoundHandler := none, MethodNotAllowedHandler := none, routes := []
    middlewares := [], conf := defaultConf }

/-- `copyRouteConf` (mux.go lines 60-80): a deep value copy of the
configuration; with the embedding's value semantics the field-by-field
copy is the identity. -/
def copyRouteConf (c : routeConfG Matcher) : routeConfG Matcher := c

/-- A fresh route carrying a copy of a router's configuration
(`Router.NewRoute`, mux.go lines 188-193). -/
def newRouteFromConf (c : routeConfG Matcher) : Route :=
  { handler := none, buildOnly := false, name := [], err := none
    conf := copyRouteConf c }

/-- Append a finished route to a router's route list (the effect of
`Router.NewRoute` plus the builder calls that configured the route). -/
def RouterG.withRoute (R : Router) (r : Route) : Router :=
  { R with routes := R.routes ++ [r] }

/-- `Router.Handle` (mux.go lines 201-203): `NewRoute().Path(path).Handler(handler)`. -/
def RouterG.Handle (R : Router) (path : Str) (h : Handler) : Router :=
  R.withRoute (((newRouteFromConf R.conf).Path path).Handler h)

/-- `Router.Use` (middleware.go lines 18-22): append middlewares. -/
def RouterG.Use (R : Router) (mwf : List (Handler → Handler)) : Router :=
  { R with middlewares := R.middlewares ++ mwf }

/-- The router `Route.Subrouter` creates (unnamed route file, lines
394-399): a fresh router seeded with a deep copy of the parent route's
configuration and an empty route list (it shares the tree's name registry,
which the embedding threads externally). -/
def RouteG.newSubrouter (r : Route) : Router :=
  { NotFoundHandler := none, MethodNotAllowedHandler := none, routes := []
    middlewares := [], conf := copyRouteConf r.conf }

/-- The attachment half of `Route.Subrouter`: the new router is appended
as a matcher on the originating route.  Go attaches the pointer before the
subrouter's routes are registered; the embedding attaches the finished
subrouter, which matches identically. -/
def RouteG.attachSubrouter (r : Route) (sub : Router) : Route :=
  r.addMatcher (Matcher.routerM sub)

end Mux

namespace Mux

open regexpType

/-! ## Concrete scenario values used by the claims -/

/-- A request with only a method and a path, as the path-routing claims
use. -/
def reqSimple (m p : Str) : Request :=
  { method := m, host := [], urlPath := p, escapedPath := p, rawQuery := []
    urlScheme := [], tls := false, headers := [] }

/-- A throwaway descriptor, used only to read the value out of an
already-proved-`ok` compilation result. -/
def rrDefault : routeRegexp :=
  { template := [], regexpType := regexpTypePath, options := ⟨false, false⟩
    regexp := { srcStr := [], segs := [], tail := [], slashQ := false
                extra := none, endAnchor := true }
    reverse := [], varsN := [], varsR := [], wildcardHostPort := false }

/-- Read a compilation result known to be `ok`. -/
def okOr (e : Except Str routeRegexp) : routeRegexp :=
  match e with
  | .ok r => r
  | .error _ => rrDefault

/-- Forget an `Except`'s error message. -/
def exOk {ε α : Type} : Except ε α → Option α
  | .ok a => some a
  | .error _ => none

/-- The router of claim C2: in registration order, a `GET /x` route and a
`POST /x` route, each with its own handler —
`r.HandleFunc("/x", h1).Methods("GET")` then
`r.HandleFunc("/x", h2).Methods("POST")`. -/
def c2router (h1 h2 : Nat) : Router :=
  (NewRouter.withRoute
      ((((newRouteFromConf defaultConf).Path (S "/x")).Handler (Handler.user h1)).Methods
        [S "GET"])).withRoute
    ((((newRouteFromConf defaultConf).Path (S "/x")).Handler (Handler.user h2)).Methods
      [S "POST"])

/-- The parent route of claim C4, `r.PathPrefix("/products")`. -/
def c4parent : Route := (newRouteFromConf defaultConf).PathPrefix (S "/products")

/-- The subrouter of claim C4: created from the parent route's
configuration, registering `"/\x7bkey\x7d/"` with a handler. -/
def c4sub (h : Nat) : Router :=
  (c4parent.newSubrouter).Handle (S "/\x7bkey\x7d/") (Handler.user h)

/-- The router of claim C4: the parent route with the subrouter attached
as its next matcher. -/
def c4router (h : Nat) : Router :=
  NewRouter.withRoute (c4parent.attachSubrouter (c4sub h))

/-- A router with middleware and a not-found fallback, used to witness
claim C10. -/
def c10router : Router :=
  { NewRouter with NotFoundHandler := some (Handler.user 5)
                   middlewares := [fun _ => Handler.user 9] }

/-- Interleave the literal parts of the segments with captured/substituted
values, then append the trailing part: the canonical decomposition of a
string matched by a compiled route pattern. -/
def glueSegs : List (Str × Regex) → List Str → Str → Str
  | [], _, t => t
  | _ :: _, [], t => t
  | (raw, _) :: rest, v :: vs, t => raw ++ v ++ glueSegs rest vs t

/-- The parsed `[0-9]+` validator of the claim C6 template. -/
def digitsRx : Regex := (parseRegex (S "[0-9]+")).getD Regex.fail

/-- The compiled descriptor of the claim C6 template. -/
def c6rr : routeRegexp :=
  okOr (newRouteRegexp (S "/\x7bid:[0-9]+\x7d") regexpTypePath ⟨false, false⟩)

/-- The compiled descriptor of the claim C1 counterexample template, two
adjacent variables. -/
def c1rr : routeRegexp :=
  okOr (newRouteRegexp (S "/\x7ba\x7d\x7bb\x7d") regexpTypePath ⟨false, false⟩)

end Mux

namespace Mux

open regexpType

/-! ## Helper lemmas -/

theorem char_toNat_ofNat (m : Nat) (h : m.isValidChar) : (Char.ofNat m).toNat = m := by
  rw [Char.ofNat, dif_pos h]
  rfl

theorem char_toUpper_idem (c : Char) : c.toUpper.toUpper = c.toUpper := by
  unfold Char.toUpper
  by_cases h : c.toNat ≥ 97 ∧ c.toNat ≤ 122
  · rw [if_pos h]
    have hv : (c.toNat - 32).isValidChar := Or.inl (by omega)
    rw [char_toNat_ofNat _ hv]
    rw [if_neg (by omega)]
  · rw [if_neg h, if_neg h]

theorem toUpperAscii_idem (s : Str) : toUpperAscii (toUpperAscii s) = toUpperAscii s := by
  induction s with
  | nil => rfl
  | cons c rest ih =>
    simp only [toUpperAscii, List.map_cons, List.map_map] at ih ⊢
    rw [char_toUpper_idem]
    exact congrArg _ (by simpa [toUpperAscii, List.map_map] using ih)

theorem processVars_length (tpl d : Str) :
    ∀ (idxs : List (Nat × Nat)) (e : Nat) (segs : List Segment) (tail : Str),
      processVars tpl d idxs e = .ok (segs, tail) → segs.length = idxs.length := by
  intro idxs
  induction idxs with
  | nil =>
    intro e segs tail h
    simp only [processVars, Except.ok.injEq, Prod.mk.injEq] at h
    rw [← h.1]
    rfl
  | cons p rest ih =>
    intro e segs tail h
    obtain ⟨b, e2⟩ := p
    simp only [processVars] at h
    split at h
    · exact absurd h (by simp)
    · split at h
      · exact absurd h (by simp)
      · split at h
        · exact absurd h (by simp)
        · rename_i segstail heq
          simp only [Except.ok.injEq, Prod.mk.injEq] at h
          obtain ⟨h1, _⟩ := h
          rw [← h1]
          simp only [List.length_cons]
          rw [ih _ _ _ heq]

/-! ## Claim C5 -/

/-- C5: for every template whose compiled pattern's capture-group count
differs from the number of template variables, construction is a fatal
error (the panic at regexp.go lines 120-123): `newRouteRegexp` never
returns a descriptor whose capture-group count differs from its variable
count. -/
theorem newRouteRegexp_numSubexp_eq_varCount (tpl : Str) (typ : regexpType)
    (opts : routeRegexpOptions) (rr : routeRegexp)
    (h : newRouteRegexp tpl typ opts = .ok rr) :
    rr.regexp.numSubexp = rr.varsN.length := by
  unfold newRouteRegexp at h
  split at h
  · exact absurd h (by simp)
  · rename_i idxs hb
    dsimp only at h
    split at h
    · exact absurd h (by simp)
    · rename_i segs tailRaw hp
      unfold assembleRR at h
      split at h
      · exact absurd h (by simp)
      · split at h
        · exact absurd h (by simp)
        · rename_i hguard
          simp only [Except.ok.injEq] at h
          subst h
          simp only [not_not] at hguard
          have hlen := processVars_length _ _ _ _ _ _ hp
          simp only [mkRR, List.length_map]
          rw [hguard, hlen]

/-- Witness for C5 at the template `/\x7bid:[0-9]+\x7d`. -/
theorem newRouteRegexp_numSubexp_witness :
    (okOr (newRouteRegexp (S "/\x7bid:[0-9]+\x7d") regexpTypePath ⟨false, false⟩)).regexp.numSubexp =
      (okOr (newRouteRegexp (S "/\x7bid:[0-9]+\x7d") regexpTypePath ⟨false, false⟩)).varsN.length :=
  newRouteRegexp_numSubexp_eq_varCount (S "/\x7bid:[0-9]+\x7d") regexpTypePath ⟨false, false⟩ _ (by rfl)

/-! ## Claim C9 -/

/-- C9 counterexample: `Queries` with an odd-length pairs list records the
construction error on the route but returns `nil` (modelled `none`), not
the same route — refuting "still returns the same Route". -/
theorem queries_odd_counterexample :
    ((newRouteFromConf defaultConf).Queries [S "k"]).2 = none ∧
    ((newRouteFromConf defaultConf).Queries [S "k"]).1.err =
      some (S "mux: number of parameters must be multiple of 2, got [k]") :=
  ⟨rfl, rfl⟩

/-- C9 amended: builder calls return the same route for chaining, except
`Queries` with an odd-length pairs list, which records the construction
error on the route but returns `nil`. -/
theorem queries_odd_records_error_returns_nil (r : Route) (pairs : List Str)
    (hodd : pairs.length % 2 ≠ 0) :
    (r.Queries pairs).1.err =
      some (S "mux: number of parameters must be multiple of 2, got " ++ fmtPairs pairs) ∧
    (r.Queries pairs).2 = none := by
  unfold RouteG.Queries
  rw [if_pos hodd]
  exact ⟨rfl, rfl⟩

/-- Witness for the amended C9 at a concrete odd pairs list. -/
theorem queries_odd_witness :
    ((newRouteFromConf defaultConf).Queries [S "q"]).1.err =
      some (S "mux: number of parameters must be multiple of 2, got " ++ fmtPairs [S "q"]) ∧
    ((newRouteFromConf defaultConf).Queries [S "q"]).2 = none :=
  queries_odd_records_error_returns_nil _ _ (by decide)

end Mux

namespace Mux

open regexpType

/-! ## Claim C7 -/

theorem find_map_subst {α : Type} (k : Str) (v : α) :
    ∀ (m : List (Str × α)),
      ((m.map (fun p => if p.1 = k then (k, v) else p)).find? (fun p => p.1 = k)) =
        (m.find? (fun p => p.1 = k)).map (fun _ => (k, v)) := by
  intro m
  induction m with
  | nil => rfl
  | cons p rest ih =>
    by_cases hp : p.1 = k
    · simp [List.find?_cons, hp]
    · simp [List.find?_cons, hp, ih]

theorem find_append_right {α : Type} (q : Str × α → Bool) :
    ∀ (m m' : List (Str × α)), m.find? q = none → (m ++ m').find? q = m'.find? q := by
  intro m m' h
  induction m with
  | nil => rfl
  | cons p rest ih =>
    simp only [List.find?_cons] at h ⊢
    cases hq : q p with
    | true => rw [hq] at h; exact absurd h (by simp)
    | false =>
      rw [hq] at h
      simp only [List.cons_append, List.find?_cons, hq]
      exact ih h

theorem find_mapInsertP {α : Type} (m : List (Str × α)) (k : Str) (v : α) :
    ((mapInsertP m k v).find? (fun p => p.1 = k)) = some (k, v) := by
  unfold mapInsertP
  by_cases h : (m.find? (fun p => p.1 = k)).isSome
  · rw [if_pos h, find_map_subst]
    obtain ⟨p, hp⟩ := Option.isSome_iff_exists.mp h
    rw [hp]
    rfl
  · rw [if_neg h]
    have hn : m.find? (fun p => p.1 = k) = none := Option.not_isSome_iff_eq_none.mp h
    rw [find_append_right _ _ _ hn]
    simp [List.find?_cons]

/-- C7 counterexample: two distinct fresh routes are given the same name
`a` through the shared registry; the second `Name` call records no error —
refuting "assigning the same name to two different routes in the tree is a
construction error" — and the registry entry now silently points at the
second route. -/
theorem name_duplicate_counterexample :
    (((((newRouteFromConf defaultConf).Handler (Handler.user 2)).Name (S "a")
        ((((newRouteFromConf defaultConf).Handler (Handler.user 1)).Name (S "a") []).2)).1).err = none) ∧
    ((((((newRouteFromConf defaultConf).Handler (Handler.user 2)).Name (S "a")
        ((((newRouteFromConf defaultConf).Handler (Handler.user 1)).Name (S "a") []).2)).2).find?
          (fun p => p.1 = S "a")).map (fun p => p.2.handler) = some (some (Handler.user 2))) :=
  ⟨rfl, rfl⟩

/-- C7 amended: calling `Name` a second time on a route that already has a
name is a construction error recorded on the route; assigning the same
name to a second, different route is **not** an error — the shared
registry entry is silently overwritten with the second route. -/
theorem name_rules_amended :
    (∀ (r : Route) (n2 : Str) (reg : List (Str × Route)), r.name ≠ [] →
      ((r.Name n2 reg).1.err =
        some (S "mux: route already has name " ++ quoteS r.name ++ S ", can't set " ++ quoteS n2))) ∧
    (∀ (r1 r2 : Route) (n : Str) (reg : List (Str × Route)),
      r1.name = [] → r1.err = none → r2.name = [] → r2.err = none →
      ((r2.Name n ((r1.Name n reg).2)).1.err = none ∧
       (r2.Name n ((r1.Name n reg).2)).1.name = n ∧
       (((r2.Name n ((r1.Name n reg).2)).2).find? (fun p => p.1 = n)) =
         some (n, (r2.Name n ((r1.Name n reg).2)).1))) := by
  constructor
  · intro r n2 reg hname
    simp [RouteG.Name, hname]
  · intro r1 r2 n reg h1n h1e h2n h2e
    simp only [RouteG.Name, h1n, h1e, h2n, h2e, ne_eq, not_true_eq_false, if_false, reduceIte]
    refine ⟨trivial, trivial, ?_⟩
    exact find_mapInsertP _ _ _

/-- Witness for the amended C7 at concrete routes. -/
theorem name_rules_witness :
    ((((((newRouteFromConf defaultConf).Handler (Handler.user 1)).Name (S "a") []).1).Name
        (S "b") []).1.err =
      some (S "mux: route already has name " ++ quoteS (S "a") ++ S ", can't set " ++ quoteS (S "b"))) ∧
    (((((newRouteFromConf defaultConf).Handler (Handler.user 2)).Name (S "a")
        ((((newRouteFromConf defaultConf).Handler (Handler.user 1)).Name (S "a") []).2)).1).err = none) := by
  constructor
  · exact (name_rules_amended.1
      (((((newRouteFromConf defaultConf).Handler (Handler.user 1)).Name (S "a") []).1))
      (S "b") [] (by decide)).trans (by rfl)
  · exact (name_rules_amended.2
      (((newRouteFromConf defaultConf).Handler (Handler.user 1)))
      (((newRouteFromConf defaultConf).Handler (Handler.user 2)))
      (S "a") [] rfl rfl rfl rfl).1

/-! ## Claim C8 -/

/-- C8: `Route.Methods` upper-cases the configured method list at
registration and adds a method matcher; the matcher tests case-insensitive
containment (the spec-modelled `matchInArray`), so a request whose method
equals a configured method up to ASCII case matches. -/
theorem methods_case_insensitive (r : Route) (ms : List Str) (req : Request)
    (m0 : RouteMatch)
    (hr : r.err = none)
    (hm : ∃ v ∈ ms, toUpperAscii v = toUpperAscii req.method) :
    ((r.Methods ms).conf.matchers = r.conf.matchers ++ [Matcher.methodM (ms.map toUpperAscii)]) ∧
    matcherMatch (Matcher.methodM (ms.map toUpperAscii)) req m0 = (true, m0) := by
  constructor
  · unfold RouteG.Methods RouteG.addMatcher
    rw [if_pos hr]
  · show (matchInArray (ms.map toUpperAscii) req.method, m0) = (true, m0)
    have : matchInArray (ms.map toUpperAscii) req.method = true := by
      obtain ⟨v, hv, hvu⟩ := hm
      unfold matchInArray
      rw [List.any_eq_true]
      refine ⟨toUpperAscii v, List.mem_map_of_mem _ hv, ?_⟩
      rw [toUpperAscii_idem, hvu]
      simp
    rw [this]

/-- Witness for C8: configured `GET`, request method `get`. -/
theorem methods_case_insensitive_witness :
    (((newRouteFromConf defaultConf).Methods [S "GET"]).conf.matchers =
      (newRouteFromConf defaultConf).conf.matchers ++
        [Matcher.methodM ([S "GET"].map toUpperAscii)]) ∧
    matcherMatch (Matcher.methodM ([S "GET"].map toUpperAscii))
        (reqSimple (S "get") (S "/x")) emptyMatch =
      (true, emptyMatch) :=
  methods_case_insensitive (newRouteFromConf defaultConf) [S "GET"]
    (reqSimple (S "get") (S "/x")) emptyMatch rfl ⟨S "GET", by decide, by decide⟩

end Mux

namespace Mux

open regexpType

/-! ## Claim C2 -/

/-- C2: a router whose routes are, in registration order, `GET /x` and
`POST /x` (each with a handler) dispatches `POST /x` to the second route's
handler with a nil match error; the first route's method mismatch does not
force the method-not-allowed fallback. -/
theorem method_mismatch_never_masks (h1 h2 : Nat) :
    (routerMatch (c2router h1 h2) (reqSimple (S "POST") (S "/x")) emptyMatch).1 = true ∧
    (routerMatch (c2router h1 h2) (reqSimple (S "POST") (S "/x")) emptyMatch).2.handler =
      some (Handler.user h2) ∧
    (routerMatch (c2router h1 h2) (reqSimple (S "POST") (S "/x")) emptyMatch).2.matchErr = none :=
  ⟨rfl, rfl, rfl⟩

/-! ## Claim C4 -/

/-- C4: under a parent `PathPrefix("/products")`, a subrouter-registered
template `"/\x7bkey\x7d/"` gets the effective path template
`"/products/\x7bkey\x7d/"` (parent template with trailing slashes trimmed,
then the child template), and a request for `/products/42/` matches it,
extracting `key=42` and selecting the subrouter route's handler with a nil
match error. -/
theorem subrouter_prefix_concatenation (h : Nat) :
    ((c4sub h).routes.head?.map (fun r => r.conf.regexp.path.map (fun p => p.template))) =
      some (some (S "/products/\x7bkey\x7d/")) ∧
    (routerMatch (c4router h) (reqSimple (S "GET") (S "/products/42/")) emptyMatch).1 = true ∧
    (routerMatch (c4router h) (reqSimple (S "GET") (S "/products/42/")) emptyMatch).2.handler =
      some (Handler.user h) ∧
    (routerMatch (c4router h) (reqSimple (S "GET") (S "/products/42/")) emptyMatch).2.matchErr =
      none ∧
    (routerMatch (c4router h) (reqSimple (S "GET") (S "/products/42/")) emptyMatch).2.vars =
      some [(S "key", S "42")] :=
  ⟨rfl, rfl, rfl, rfl, rfl⟩

/-! ## Claim C10 -/

/-- C10: the middleware chain is applied only on a clean match.  Whenever
`Router.Match` ends with a non-nil match error — a matched route that left
an error, the method-not-allowed fallback, the not-found fallback, or no
match at all — the router's middleware list has no effect on the result,
so the returned handler is not wrapped. -/
theorem middleware_only_on_clean_match (R : Router) (mws : List (Handler → Handler))
    (req : Request) (m0 : RouteMatch)
    (h : (routerMatch R req m0).2.matchErr ≠ none) :
    routerMatch { R with middlewares := mws } req m0 = routerMatch R req m0 := by
  unfold routerMatch at h ⊢
  dsimp only at h ⊢
  cases hres : tryRoutes R.routes req m0 with
  | mk b m =>
    rw [hres] at h
    cases b with
    | true =>
      dsimp only at h ⊢
      by_cases he : m.matchErr = none
      · rw [if_pos he] at h
        exact absurd he h
      · simp only [if_neg he]
    | false =>
      dsimp only at h ⊢
      rfl

/-- Witness for C10: a router with middleware and a configured not-found
fallback; the not-found result carries `ErrNotFound`, and stripping the
middleware list leaves the result unchanged (the fallback handler was
never wrapped). -/
theorem middleware_only_on_clean_match_witness :
    routerMatch { c10router with middlewares := [] } (reqSimple (S "GET") (S "/nope"))
        emptyMatch =
      routerMatch c10router (reqSimple (S "GET") (S "/nope")) emptyMatch :=
  middleware_only_on_clean_match c10router [] (reqSimple (S "GET") (S "/nope")) emptyMatch
    (fun hc => Option.noConfusion
      ((rfl :
        (routerMatch c10router (reqSimple (S "GET") (S "/nope")) emptyMatch).2.matchErr =
          some MatchErr.notFound).symm.trans hc))

end Mux

namespace Mux

open regexpType

/-! ## Claim C3 -/

theorem braceIndicesAux_snoc (c : Char) (hc1 : c ≠ '\x7b') (hc2 : c ≠ '\x7d')
    (o1 o2 : Str) :
    ∀ (s : Str) (i level idx : Nat) (acc : List (Nat × Nat)),
      exOk (braceIndicesAux o1 (s ++ [c]) i level idx acc) =
        exOk (braceIndicesAux o2 s i level idx acc) := by
  intro s
  induction s with
  | nil =>
    intro i level idx acc
    simp only [List.nil_append]
    show exOk (braceIndicesAux o1 [c] i level idx acc) =
      exOk (braceIndicesAux o2 [] i level idx acc)
    unfold braceIndicesAux
    rw [if_neg hc1, if_neg hc2]
    unfold braceIndicesAux
    by_cases hl : level ≠ 0
    · rw [if_pos hl, if_pos hl]
      rfl
    · rw [if_neg hl, if_neg hl]
  | cons d rest ih =>
    intro i level idx acc
    simp only [List.cons_append]
    unfold braceIndicesAux
    by_cases hd1 : d = '\x7b'
    · rw [if_pos hd1, if_pos hd1]
      exact ih _ _ _ _
    · rw [if_neg hd1, if_neg hd1]
      by_cases hd2 : d = '\x7d'
      · rw [if_pos hd2, if_pos hd2]
        cases level with
        | zero => rfl
        | succ l =>
          cases l with
          | zero => exact ih _ _ _ _
          | succ l' => exact ih _ _ _ _
      · rw [if_neg hd2, if_neg hd2]
        exact ih _ _ _ _

theorem braceIndices_dropLast (tpl : Str) (hsl : endsWithSlash tpl = true)
    (idxs : List (Nat × Nat)) (h : braceIndices tpl = .ok idxs) :
    braceIndices tpl.dropLast = .ok idxs := by
  have hne : tpl ≠ [] := by
    intro he
    rw [he] at hsl
    exact absurd hsl (by decide)
  have hq : tpl.getLast? = some '/' := of_decide_eq_true hsl
  have hlast : tpl.getLast hne = '/' := by
    rw [List.getLast?_eq_getLast tpl hne] at hq
    exact Option.some.inj hq
  have hdecomp : tpl.dropLast ++ ['/'] = tpl := by
    rw [← hlast]
    exact List.dropLast_append_getLast hne
  have hs := braceIndicesAux_snoc '/' (by decide) (by decide) tpl tpl.dropLast
    tpl.dropLast 0 0 0 []
  rw [hdecomp] at hs
  unfold braceIndices at h ⊢
  rw [h] at hs
  cases hR : braceIndicesAux tpl.dropLast tpl.dropLast 0 0 0 [] with
  | ok v =>
    rw [hR] at hs
    simp only [exOk, Option.some.injEq] at hs
    rw [hs]
  | error e =>
    rw [hR] at hs
    exact absurd hs (by simp [exOk])

theorem adjustOptions_path (o : routeRegexpOptions) :
    adjustOptions regexpTypePath o = o := by
  simp [adjustOptions]

theorem extraBFor_path (t : Str) : extraBFor regexpTypePath t = false := by
  simp [extraBFor]

theorem mkCompiled_path_template_irrel (options : routeRegexpOptions) (t1 t2 : Str)
    (segs : List Segment) (tailRaw : Str) :
    mkCompiled regexpTypePath options t1 segs tailRaw =
      mkCompiled regexpTypePath options t2 segs tailRaw := by
  simp [mkCompiled, mkPatternStr, mkExtra, extraBFor_path]

theorem mkReverse_endSlash (segs : List Segment) (tailRaw : Str) :
    mkReverse segs tailRaw true = mkReverse segs tailRaw false ++ ['/'] := by
  simp [mkReverse, S]

/-- C3 counterexample: a Prefix template `/p/` compiled with `strictSlash`
set keeps its trailing slash: the compiled pattern is `^/p/` — not the
stripped `^/p[/]?` the claim's stripping would produce — because
regexp.go line 44 turns `strictSlash` off for every kind but Path. -/
theorem strictSlash_prefix_counterexample :
    exOk ((newRouteRegexp (S "/p/") regexpTypePrefixOfPath ⟨true, false⟩).map
      (fun r => (r.regexp.srcStr, r.reverse))) = some (S "^/p/", S "/p/") ∧
    S "^/p/" ≠ S "^/p[/]?" :=
  ⟨rfl, by decide⟩

/-- C3 amended: only for the Path kind: when `strictSlash` is set and the
template ends in `/`, the compiler strips the slash before building the
pattern — the descriptor has the same compiled pattern string as the
slash-less template — and re-appends `/` at the end of the reverse
template.  (For Prefix, Host and Query, `strictSlash` is disabled at
regexp.go line 44 and nothing is stripped.) -/
theorem strictSlash_strip_path_only (tpl : Str) (opts : routeRegexpOptions)
    (rr : routeRegexp)
    (hss : opts.strictSlash = true) (hsl : endsWithSlash tpl = true)
    (hsl2 : endsWithSlash tpl.dropLast = false)
    (h : newRouteRegexp tpl regexpTypePath opts = .ok rr) :
    ∃ rr', newRouteRegexp tpl.dropLast regexpTypePath opts = .ok rr' ∧
      rr.regexp.srcStr = rr'.regexp.srcStr ∧
      rr.reverse = rr'.reverse ++ ['/'] := by
  unfold newRouteRegexp at h ⊢
  split at h
  · exact absurd h (by simp)
  · rename_i idxs hb
    rw [braceIndices_dropLast tpl hsl idxs hb]
    rw [adjustOptions_path] at h ⊢
    dsimp only at h ⊢
    rw [hss, hsl] at h
    rw [hss, hsl2]
    simp only [Bool.and_true, Bool.and_false] at h ⊢
    rw [show stripEndSlash true tpl = tpl.dropLast from rfl] at h
    rw [show stripEndSlash false tpl.dropLast = tpl.dropLast from rfl]
    cases hp : processVars tpl.dropLast (defaultPatternFor regexpTypePath) idxs 0 with
    | error e =>
      rw [hp] at h
      exact absurd h (by simp)
    | ok segsTail =>
      obtain ⟨segs, tailRaw⟩ := segsTail
      rw [hp] at h
      dsimp only at h ⊢
      unfold assembleRR at h ⊢
      rw [if_neg (by simp)] at h
      rw [if_neg (by simp)]
      rw [mkCompiled_path_template_irrel opts tpl.dropLast tpl]
      split at h
      · exact absurd h (by simp)
      · rename_i hguard
        rw [if_neg hguard]
        simp only [Except.ok.injEq] at h
        subst h
        refine ⟨_, rfl, ?_, ?_⟩
        · show (mkRR tpl regexpTypePath opts true segs tailRaw).regexp.srcStr =
            (mkRR tpl.dropLast regexpTypePath opts false segs tailRaw).regexp.srcStr
          simp only [mkRR]
          rw [mkCompiled_path_template_irrel opts tpl tpl.dropLast]
        · show (mkRR tpl regexpTypePath opts true segs tailRaw).reverse =
            (mkRR tpl.dropLast regexpTypePath opts false segs tailRaw).reverse ++ ['/']
          simp only [mkRR]
          exact mkReverse_endSlash segs tailRaw

end Mux

namespace Mux

open regexpType

/-! ## Semantics of the compiled pattern: completeness and soundness of the
segment walk -/

theorem splits_mem (a b : Str) : (a, b) ∈ splits (a ++ b) := by
  unfold splits
  rw [List.mem_map]
  refine ⟨a.length, ?_, ?_⟩
  · rw [List.mem_reverse, List.mem_range]
    simp [List.length_append]
    omega
  · rw [List.take_left, List.drop_left]

theorem splits_sound (s : Str) : ∀ p ∈ splits s, p.1 ++ p.2 = s := by
  intro p hp
  unfold splits at hp
  rw [List.mem_map] at hp
  obtain ⟨n, _, hn⟩ := hp
  rw [← hn]
  exact List.take_append_drop n s

theorem findSome?_isSome_of_mem {α β : Type} (l : List α) (f : α → Option β) (x : α)
    (hx : x ∈ l) (hf : (f x).isSome) : (l.findSome? f).isSome := by
  by_contra hc
  rw [Option.not_isSome_iff_eq_none] at hc
  rw [List.findSome?_eq_none_iff] at hc
  rw [hc x hx] at hf
  exact absurd hf (by simp)

theorem isPrefixOf_append_self (raw x : Str) : raw.isPrefixOf (raw ++ x) = true := by
  rw [List.isPrefixOf_iff_prefix]
  exact List.prefix_append raw x

theorem eq_append_drop_of_isPrefixOf (raw s : Str) (h : raw.isPrefixOf s = true) :
    s = raw ++ s.drop raw.length := by
  rw [List.isPrefixOf_iff_prefix] at h
  obtain ⟨u, hu⟩ := h
  rw [← hu, List.drop_left]

theorem finishOk_self (tail : Str) (sq : Bool) : finishOk tail sq none true tail = true := by
  unfold finishOk
  rw [List.isPrefixOf_iff_prefix.mpr (List.prefix_refl tail), Bool.true_and, List.drop_length]
  cases sq <;> simp

theorem finishOk_slash (tail : Str) : finishOk tail true none true (tail ++ ['/']) = true := by
  unfold finishOk
  rw [isPrefixOf_append_self, Bool.true_and, List.drop_left]
  simp

end Mux

namespace Mux

open regexpType

theorem finishOk_sound_noslash (tail t : Str)
    (h : finishOk tail false none true t = true) : t = tail := by
  unfold finishOk at h
  rw [Bool.and_eq_true] at h
  obtain ⟨h1, h2⟩ := h
  simp only [List.any_eq_true] at h2
  obtain ⟨r', hr', hempty⟩ := h2
  simp only [Bool.false_eq_true, if_false, List.mem_singleton] at hr'
  subst hr'
  simp only [if_true, List.isEmpty_iff] at hempty
  have := eq_append_drop_of_isPrefixOf tail t h1
  rw [hempty, List.append_nil] at this
  exact this

theorem extractSegs_complete (tail : Str) (sq : Bool) (extra : Option Regex) (ea : Bool)
    (t : Str) (hfin : finishOk tail sq extra ea t = true) :
    ∀ (segs : List (Str × Regex)) (vals : List Str),
      List.Forall₂ (fun sg v => Regex.rmatch sg.2 v = true) segs vals →
      (extractSegs segs tail sq extra ea (glueSegs segs vals t)).isSome := by
  intro segs vals hfa
  induction hfa with
  | nil =>
    simp only [glueSegs, extractSegs, hfin, if_true]
    rfl
  | @cons sg v segs' vals' hm hfa ih =>
    obtain ⟨raw, e⟩ := sg
    simp only [glueSegs, List.append_assoc]
    unfold extractSegs
    rw [isPrefixOf_append_self, if_pos rfl, List.drop_left]
    apply findSome?_isSome_of_mem _ _ (v, glueSegs segs' vals' t) (splits_mem _ _)
    rw [hm, if_pos rfl]
    obtain ⟨out, hout⟩ := Option.isSome_iff_exists.mp ih
    rw [hout]
    rfl

theorem extractSegs_sound (tail : Str) (sq : Bool) (extra : Option Regex) (ea : Bool) :
    ∀ (segs : List (Str × Regex)) (s : Str) (out : List Str),
      extractSegs segs tail sq extra ea s = some out →
      ∃ t, s = glueSegs segs out t ∧ finishOk tail sq extra ea t = true ∧
        out.length = segs.length := by
  intro segs
  induction segs with
  | nil =>
    intro s out h
    unfold extractSegs at h
    split at h
    · rename_i hfin
      simp only [Option.some.injEq] at h
      exact ⟨s, by simp [glueSegs, ← h], hfin, by simp [← h]⟩
    · exact absurd h (by simp)
  | cons sge rest ih =>
    intro s out h
    obtain ⟨raw, e⟩ := sge
    unfold extractSegs at h
    split at h
    · rename_i hpre
      obtain ⟨x, hx, hfx⟩ := List.exists_of_findSome?_eq_some h
      obtain ⟨m, r⟩ := x
      split at hfx
      · rename_i hm
        cases hrec : extractSegs rest tail sq extra ea r with
        | none => rw [hrec] at hfx; exact absurd hfx (by simp)
        | some out' =>
          rw [hrec] at hfx
          simp only [Option.some.injEq] at hfx
          obtain ⟨t, hr, hfin, hlen⟩ := ih r out' hrec
          refine ⟨t, ?_, hfin, ?_⟩
          · have hsr : m ++ r = s.drop raw.length := splits_sound _ _ hx
            have hs : s = raw ++ s.drop raw.length := eq_append_drop_of_isPrefixOf _ _ hpre
            rw [hs, ← hsr, hr, ← hfx]
            simp [glueSegs, List.append_assoc]
          · rw [← hfx]
            simp [hlen]
      · exact absurd hfx (by simp)
    · exact absurd h (by simp)

theorem sprintfS_cons_ne (c : Char) (t : Str) (args : List Str) (hc : c ≠ '%') :
    sprintfS (c :: t) args = c :: sprintfS t args := by
  cases t with
  | nil => rfl
  | cons d rest =>
    conv_lhs => unfold sprintfS
    rw [if_neg (fun hand => hc hand.1), if_neg (fun hand => hc hand.1)]

theorem sprintfS_no_pct (t : Str) (ht : '%' ∉ t) (args : List Str) :
    sprintfS t args = t := by
  induction t with
  | nil => rfl
  | cons c rest ih =>
    rw [sprintfS_cons_ne c rest args (fun he => ht (he ▸ List.mem_cons_self c rest))]
    rw [ih (fun hm => ht (List.mem_cons_of_mem c hm))]

theorem sprintfS_through (lit : Str) (hl : '%' ∉ lit) (f : Str) (args : List Str) :
    sprintfS (lit ++ f) args = lit ++ sprintfS f args := by
  induction lit with
  | nil => simp
  | cons c rest ih =>
    have hc : c ≠ '%' := fun he => hl (he ▸ List.mem_cons_self c rest)
    have hr : '%' ∉ rest := fun hm => hl (List.mem_cons_of_mem c hm)
    simp only [List.cons_append]
    rw [sprintfS_cons_ne c _ args hc, ih hr]

theorem sprintfS_take_arg (x : Str) (v : Str) (vs : List Str) :
    sprintfS ('%' :: 's' :: x) (v :: vs) = v ++ sprintfS x vs := by
  conv_lhs => unfold sprintfS
  rw [if_pos ⟨rfl, rfl⟩]

theorem sprintfS_glue (t : Str) (ht : '%' ∉ t) :
    ∀ (segs : List (Str × Regex)) (vals : List Str), segs.length = vals.length →
      (∀ pr ∈ segs, '%' ∉ pr.1) →
      sprintfS ((segs.map (fun pr => pr.1 ++ S "%s")).flatten ++ t) vals =
        glueSegs segs vals t := by
  intro segs
  induction segs with
  | nil =>
    intro vals hlen _
    cases vals with
    | nil => simp [glueSegs, sprintfS_no_pct t ht]
    | cons v vs => simp at hlen
  | cons pr rest ih =>
    intro vals hlen hp
    cases vals with
    | nil => simp at hlen
    | cons v vs =>
      obtain ⟨raw, e⟩ := pr
      have hraw : '%' ∉ raw := by
        have := hp (raw, e) (List.mem_cons_self _ _)
        exact this
      simp only [List.map_cons, List.flatten_cons, List.append_assoc]
      rw [sprintfS_through raw hraw]
      rw [show (S "%s" ++ ((rest.map (fun pr => pr.1 ++ S "%s")).flatten ++ t)) =
        '%' :: 's' :: ((rest.map (fun pr => pr.1 ++ S "%s")).flatten ++ t) from rfl]
      rw [sprintfS_take_arg]
      rw [ih vs (by simpa using hlen) (fun q hq => hp q (List.mem_cons_of_mem _ hq))]
      simp [glueSegs, List.append_assoc]

end Mux

namespace Mux

open regexpType

theorem lookupVal_cons_ne (k0 n : Str) (v0 : Str) (m : List (Str × Str)) (h : n ≠ k0) :
    lookupVal ((k0, v0) :: m) n = lookupVal m n := by
  unfold lookupVal
  rw [List.find?_cons]
  have : (decide ((k0, v0).1 = n)) = false := by
    simp only [decide_eq_false_iff_not]
    exact fun he => h he.symm
  rw [this]

theorem lookupVal_zip_aux :
    ∀ (names vals : List Str) (pre : List (Str × Str)),
      names.Nodup → names.length = vals.length →
      (∀ n ∈ names, pre.find? (fun p => p.1 = n) = none) →
      List.Forall₂ (fun n v => lookupVal (pre ++ names.zip vals) n = some v) names vals := by
  intro names
  induction names with
  | nil =>
    intro vals pre _ hlen _
    cases vals with
    | nil => exact List.Forall₂.nil
    | cons v vs => simp at hlen
  | cons n rest ih =>
    intro vals pre hnd hlen hpre
    cases vals with
    | nil => simp at hlen
    | cons v vs =>
      refine List.Forall₂.cons ?_ ?_
      · unfold lookupVal
        rw [find_append_right _ _ _ (hpre n (List.mem_cons_self n rest))]
        simp [List.find?_cons]
      · have hassoc : pre ++ (n :: rest).zip (v :: vs) = (pre ++ [(n, v)]) ++ rest.zip vs := by
          simp [List.zip_cons_cons]
        rw [hassoc]
        apply ih vs (pre ++ [(n, v)]) (List.Nodup.of_cons hnd) (by simpa using hlen)
        intro x hx
        rw [find_append_right _ _ _ (hpre x (List.mem_cons_of_mem n hx))]
        have hne : n ≠ x := fun he => (List.nodup_cons.mp hnd).1 (he ▸ hx)
        simp [List.find?_cons, hne]

end Mux

namespace Mux

open regexpType

theorem lookupVal_zip (names vals : List Str) (hnd : names.Nodup)
    (hlen : names.length = vals.length) :
    List.Forall₂ (fun n v => lookupVal (names.zip vals) n = some v) names vals := by
  have := lookupVal_zip_aux names vals [] hnd hlen (fun _ _ => rfl)
  simpa using this

theorem collectUrlValues_of_lookup (typ : regexpType) (hty : typ ≠ regexpTypeQuery) :
    ∀ (names vals : List Str) (values : List (Str × Str)),
      List.Forall₂ (fun n v => lookupVal values n = some v) names vals →
      collectUrlValues typ names values = .ok vals := by
  intro names
  induction names with
  | nil =>
    intro vals values hfa
    cases hfa
    rfl
  | cons n rest ih =>
    intro vals values hfa
    cases hfa with
    | cons hnv hrest =>
      unfold collectUrlValues
      rw [hnv]
      dsimp only
      rw [if_neg hty]
      rw [ih _ _ hrest]

/-- Destructor for a successful compilation: the returned descriptor is the
assembled `mkRR` of the processed segments. -/
theorem newRouteRegexp_ok_elim (tpl : Str) (typ : regexpType) (opts : routeRegexpOptions)
    (rr : routeRegexp) (h : newRouteRegexp tpl typ opts = .ok rr) :
    ∃ (segs : List Segment) (tailRaw : Str),
      rr = mkRR tpl typ (adjustOptions typ opts) ((adjustOptions typ opts).strictSlash &&
        endsWithSlash tpl) segs tailRaw := by
  unfold newRouteRegexp at h
  split at h
  · exact absurd h (by simp)
  · rename_i idxs hb
    dsimp only at h
    split at h
    · exact absurd h (by simp)
    · rename_i segs tailRaw hp
      unfold assembleRR at h
      split at h
      · exact absurd h (by simp)
      · split at h
        · exact absurd h (by simp)
        · simp only [Except.ok.injEq] at h
          exact ⟨segs, tailRaw, h.symm⟩

end Mux

namespace Mux

open regexpType

theorem single_seg_no_match (raw : Str) (e : Regex) (v : Str)
    (hv : Regex.rmatch e v = false) :
    extractSegs [(raw, e)] [] false none true (raw ++ v) = none := by
  unfold extractSegs
  rw [isPrefixOf_append_self, if_pos rfl, List.drop_left]
  apply List.findSome?_eq_none_iff.mpr
  intro p hp
  obtain ⟨m, r⟩ := p
  have hmr : m ++ r = v := splits_sound v _ hp
  by_cases hm : Regex.rmatch e m = true
  · rw [if_pos hm]
    cases r with
    | nil =>
      have hmv : m = v := by simpa using hmr
      rw [hmv] at hm
      rw [hv] at hm
      exact absurd hm (by simp)
    | cons c r' =>
      have hinner : extractSegs ([] : List (Str × Regex)) [] false none true (c :: r') = none := by
        unfold extractSegs
        have hf : finishOk [] false none true (c :: r') = false := by
          simp [finishOk]
        rw [hf]
        simp
      rw [hinner]
  · rw [if_neg hm]

/-- C6 counterexample: building a URL for `/\x7bid:[0-9]+\x7d` with `id=abc`
errors, but the error message names the offending value `"abc"` and the
validator pattern — not the variable `id`: the source passes `values[v]`
(the value), not the name, to the format string (regexp.go lines 198-200).
The name `id` does not occur in the message. -/
theorem url_error_counterexample :
    c6rr.url [(S "id", S "abc")] =
      .error (S "mux: variable \"abc\" doesn't match, expected \"^[0-9]+$\"") ∧
    ¬ ((S "id") <:+: (S "mux: variable \"abc\" doesn't match, expected \"^[0-9]+$\"")) :=
  ⟨rfl, by decide⟩

/-- C6 amended: when the substituted result fails the compiled pattern and
a supplied value fails its variable's validator, `url` returns an error
naming the offending **value** and the validator's expected pattern (not
the variable's name), and no URL is returned.  Stated for the claim's
template `/\x7bid:[0-9]+\x7d` and every value failing `[0-9]+`. -/
theorem url_validator_error_names_value (v : Str)
    (hv : Regex.rmatch digitsRx v = false) :
    c6rr.url [(S "id", v)] =
      .error (S "mux: variable " ++ quoteS v ++ S " doesn't match, expected " ++
        quoteS (S "^[0-9]+$")) := by
  unfold routeRegexp.url
  have hcol : collectUrlValues c6rr.regexpType c6rr.varsN [(S "id", v)] = .ok [v] := rfl
  rw [hcol]
  dsimp only
  have hrv : sprintfS c6rr.reverse [v] = S "/" ++ v := by
    show '/' :: (v ++ []) = '/' :: v
    rw [List.append_nil]
  rw [hrv]
  have hnm : c6rr.regexp.matchString (S "/" ++ v) = false := by
    unfold CompiledRx.matchString CompiledRx.findSubmatch
    have hsegs : c6rr.regexp.segs = [(S "/", digitsRx)] := rfl
    rw [hsegs]
    rw [show c6rr.regexp.tail = [] from rfl, show c6rr.regexp.slashQ = false from rfl,
      show c6rr.regexp.extra = none from rfl, show c6rr.regexp.endAnchor = true from rfl]
    rw [single_seg_no_match (S "/") digitsRx v hv]
    rfl
  rw [hnm]
  simp only [Bool.false_eq_true, if_false]
  have hff : firstFailing c6rr.varsN c6rr.varsR [(S "id", v)] = some (v, S "^[0-9]+$") := by
    unfold firstFailing
    show List.findSome? _ ((S "id", RegexV.mk (S "^[0-9]+$") digitsRx) :: []) = _
    rw [List.findSome?]
    dsimp only
    rw [show lookupVal [(S "id", v)] (S "id") = some v from rfl]
    dsimp only [Option.getD]
    rw [hv]
    simp
  rw [hff]

/-- Witness for the amended C6 at `id=abc`. -/
theorem url_validator_error_witness :
    c6rr.url [(S "id", S "abc")] =
      .error (S "mux: variable " ++ quoteS (S "abc") ++ S " doesn't match, expected " ++
        quoteS (S "^[0-9]+$")) :=
  url_validator_error_names_value (S "abc") (by decide)

end Mux

namespace Mux

open regexpType

theorem mkExtra_path (t : Str) : mkExtra regexpTypePath t = none := by
  simp [mkExtra, extraBFor]

/-- C1 amended: for every Path template that compiles, with distinct
variable names and percent-free literals, substituting validator-matching
values through the reverse template yields a path accepted by the compiled
pattern (`url` returns it with no error); and when the template has at most
one variable and `strictSlash` is off, extraction through the pattern's
capture groups recovers exactly the substituted values.  (With two or more
variables the decomposition can be ambiguous and extraction may differ —
see the counterexample.) -/
theorem path_roundtrip_amended (tpl : Str) (opts : routeRegexpOptions) (rr : routeRegexp)
    (vals : List Str)
    (h : newRouteRegexp tpl regexpTypePath opts = .ok rr)
    (hvalid : List.Forall₂ (fun rv v => Regex.rmatch (RegexV.ast rv) v = true) rr.varsR vals)
    (hnd : rr.varsN.Nodup)
    (hpct : ∀ pr ∈ rr.regexp.segs, '%' ∉ pr.1)
    (hpctt : '%' ∉ rr.regexp.tail) :
    rr.url (rr.varsN.zip vals) = .ok (sprintfS rr.reverse vals) ∧
    rr.regexp.matchString (sprintfS rr.reverse vals) = true ∧
    (opts.strictSlash = false → rr.varsN.length ≤ 1 →
      rr.regexp.findSubmatch (sprintfS rr.reverse vals) = some vals) := by
  obtain ⟨segs, tailRaw, hrr⟩ := newRouteRegexp_ok_elim _ _ _ _ h
  rw [adjustOptions_path] at hrr
  subst hrr
  simp only [mkRR, mkCompiled] at hvalid hnd hpct hpctt ⊢
  have hva : List.Forall₂ (fun sg v => Regex.rmatch (Segment.patt sg) v = true) segs vals := by
    rw [List.forall₂_map_left_iff] at hvalid
    exact hvalid
  have hfa2 : List.Forall₂ (fun (pr : Str × Regex) v => Regex.rmatch pr.2 v = true)
      (segs.map (fun sg => (sg.raw, sg.patt))) vals := by
    rw [List.forall₂_map_left_iff]
    exact hva
  have hlen : segs.length = vals.length := hva.length_eq
  have ht : '%' ∉ tailRaw ++
      (if (opts.strictSlash && endsWithSlash tpl) then S "/" else []) := by
    intro hmem
    rcases List.mem_append.mp hmem with hl | hr
    · exact hpctt hl
    · cases hcase : (opts.strictSlash && endsWithSlash tpl) with
      | true => rw [hcase] at hr; exact absurd hr (by decide)
      | false => rw [hcase] at hr; exact absurd hr (by simp)
  have hrev : mkReverse segs tailRaw (opts.strictSlash && endsWithSlash tpl) =
      ((segs.map (fun sg => (sg.raw, sg.patt))).map (fun pr => pr.1 ++ S "%s")).flatten ++
        (tailRaw ++ (if (opts.strictSlash && endsWithSlash tpl) then S "/" else [])) := by
    unfold mkReverse
    rw [List.map_map]
    rw [List.append_assoc]
    rfl
  have hP : sprintfS (mkReverse segs tailRaw (opts.strictSlash && endsWithSlash tpl)) vals =
      glueSegs (segs.map (fun sg => (sg.raw, sg.patt))) vals
        (tailRaw ++ (if (opts.strictSlash && endsWithSlash tpl) then S "/" else [])) := by
    rw [hrev]
    refine sprintfS_glue _ ht _ vals (by simp [hlen]) ?_
    intro pr hpr
    exact hpct pr hpr
  have hfin : finishOk tailRaw opts.strictSlash none true
      (tailRaw ++ (if (opts.strictSlash && endsWithSlash tpl) then S "/" else [])) = true := by
    cases hos : opts.strictSlash with
    | false =>
      rw [Bool.false_and]
      simp only [Bool.false_eq_true, if_false, List.append_nil]
      exact finishOk_self tailRaw false
    | true =>
      rw [Bool.true_and]
      cases hew : endsWithSlash tpl with
      | false =>
        simp only [Bool.false_eq_true, if_false, List.append_nil]
        exact finishOk_self tailRaw true
      | true =>
        simp only [if_true]
        exact finishOk_slash tailRaw
  have hmatchSome : (extractSegs (segs.map (fun sg => (sg.raw, sg.patt))) tailRaw
      opts.strictSlash none true
      (glueSegs (segs.map (fun sg => (sg.raw, sg.patt))) vals
        (tailRaw ++ (if (opts.strictSlash && endsWithSlash tpl) then S "/" else [])))).isSome :=
    extractSegs_complete _ _ _ _ _ hfin _ vals hfa2
  have hmatch : CompiledRx.matchString
      { srcStr := mkPatternStr regexpTypePath opts tpl segs tailRaw
        segs := segs.map (fun sg => (sg.raw, sg.patt))
        tail := tailRaw
        slashQ := opts.strictSlash
        extra := mkExtra regexpTypePath tpl
        endAnchor := decide (regexpTypePath ≠ regexpTypePrefixOfPath) }
      (sprintfS (mkReverse segs tailRaw (opts.strictSlash && endsWithSlash tpl)) vals) =
        true := by
    unfold CompiledRx.matchString CompiledRx.findSubmatch
    dsimp only
    rw [mkExtra_path, hP]
    rw [show (decide (regexpTypePath ≠ regexpTypePrefixOfPath)) = true from rfl]
    exact hmatchSome
  have hcol : collectUrlValues regexpTypePath (segs.map (fun sg => sg.name))
      ((segs.map (fun sg => sg.name)).zip vals) = .ok vals := by
    refine collectUrlValues_of_lookup regexpTypePath (by decide) _ _ _ ?_
    refine lookupVal_zip _ _ hnd (by simp [hlen])
  refine ⟨?_, ?_, ?_⟩
  · unfold routeRegexp.url
    dsimp only
    rw [hcol]
    dsimp only
    rw [hmatch]
    rfl
  · exact hmatch
  · intro hss hle
    have hP0 := hP
    rw [hss] at hP0
    simp only [Bool.false_and, Bool.false_eq_true, if_false, List.append_nil] at hP0
    have hms := hmatchSome
    rw [hss] at hms
    simp only [Bool.false_and, Bool.false_eq_true, if_false, List.append_nil] at hms
    unfold CompiledRx.findSubmatch
    dsimp only
    rw [mkExtra_path]
    rw [show (decide (regexpTypePath ≠ regexpTypePrefixOfPath)) = true from rfl]
    rw [hss]
    simp only [Bool.false_and]
    rw [hP0]
    cases segs with
    | nil =>
      cases vals with
      | nil =>
        simp only [List.map_nil]
        unfold extractSegs
        rw [show glueSegs ([] : List (Str × Regex)) [] tailRaw = tailRaw from rfl]
        rw [finishOk_self tailRaw false]
        rfl
      | cons v vs => simp at hlen
    | cons sg rest =>
      cases rest with
      | cons sg2 rest2 => simp at hle
      | nil =>
        cases vals with
        | nil => simp at hlen
        | cons v vs =>
          cases vs with
          | cons v2 vs2 => simp at hlen
          | nil =>
            obtain ⟨out, hout⟩ := Option.isSome_iff_exists.mp hms
            obtain ⟨t', hPt, hfin', hlenout⟩ := extractSegs_sound _ _ _ _ _ _ _ hout
            have ht' : t' = tailRaw := finishOk_sound_noslash _ _ hfin'
            subst ht'
            cases out with
            | nil => simp at hlenout
            | cons m ms =>
              cases ms with
              | cons m2 ms2 => simp at hlenout
              | nil =>
                have hmv : m = v := by
                  have h1 := hPt
                  simp only [List.map_cons, List.map_nil, glueSegs] at h1
                  have h2 := List.append_cancel_right h1
                  exact (List.append_cancel_left h2).symm
                rw [hout, hmv]

end Mux

namespace Mux

open regexpType

/-- C1 counterexample: the Path template `/\x7ba\x7d\x7bb\x7d` (two adjacent
variables) compiles; the values `a=x`, `b=yz` match both validators and
substitute to `/xyz`, which the compiled pattern accepts — but greedy
leftmost-first extraction captures `a=xy`, `b=z`, not the substituted
values: the round-trip claim fails. -/
theorem path_roundtrip_counterexample :
    c1rr.varsN = [S "a", S "b"] ∧
    List.Forall₂ (fun rv v => Regex.rmatch (RegexV.ast rv) v = true) c1rr.varsR
      [S "x", S "yz"] ∧
    c1rr.url [(S "a", S "x"), (S "b", S "yz")] = .ok (S "/xyz") ∧
    c1rr.regexp.findSubmatch (S "/xyz") = some [S "xy", S "z"] ∧
    [S "xy", S "z"] ≠ [S "x", S "yz"] :=
  ⟨rfl, List.Forall₂.cons rfl (List.Forall₂.cons rfl List.Forall₂.nil), rfl, rfl, by decide⟩

/-- Witness for the amended C1 at the template `/a/\x7bx\x7d` with `x=7`. -/
theorem path_roundtrip_witness :
    (okOr (newRouteRegexp (S "/a/\x7bx\x7d") regexpTypePath ⟨false, false⟩)).url
        ((okOr (newRouteRegexp (S "/a/\x7bx\x7d") regexpTypePath ⟨false, false⟩)).varsN.zip
          [S "7"]) =
      .ok (sprintfS
        (okOr (newRouteRegexp (S "/a/\x7bx\x7d") regexpTypePath ⟨false, false⟩)).reverse
        [S "7"]) ∧
    (okOr (newRouteRegexp (S "/a/\x7bx\x7d") regexpTypePath ⟨false, false⟩)).regexp.matchString
        (sprintfS
          (okOr (newRouteRegexp (S "/a/\x7bx\x7d") regexpTypePath ⟨false, false⟩)).reverse
          [S "7"]) = true ∧
    ((⟨false, false⟩ : routeRegexpOptions).strictSlash = false →
      (okOr (newRouteRegexp (S "/a/\x7bx\x7d") regexpTypePath ⟨false, false⟩)).varsN.length ≤ 1 →
      (okOr (newRouteRegexp (S "/a/\x7bx\x7d") regexpTypePath ⟨false, false⟩)).regexp.findSubmatch
          (sprintfS
            (okOr (newRouteRegexp (S "/a/\x7bx\x7d") regexpTypePath ⟨false, false⟩)).reverse
            [S "7"]) = some [S "7"]) :=
  path_roundtrip_amended (S "/a/\x7bx\x7d") ⟨false, false⟩ _ [S "7"] (by rfl)
    (List.Forall₂.cons rfl List.Forall₂.nil) (by decide) (by decide) (by decide)

end Mux

namespace Mux

open regexpType

/-- Witness for the amended C3 at the Path template `/p/` with strictSlash. -/
theorem strictSlash_strip_witness :
    ∃ rr', newRouteRegexp (S "/p/").dropLast regexpTypePath ⟨true, false⟩ = .ok rr' ∧
      (okOr (newRouteRegexp (S "/p/") regexpTypePath ⟨true, false⟩)).regexp.srcStr =
        rr'.regexp.srcStr ∧
      (okOr (newRouteRegexp (S "/p/") regexpTypePath ⟨true, false⟩)).reverse =
        rr'.reverse ++ ['/'] :=
  strictSlash_strip_path_only (S "/p/") ⟨true, false⟩ _ rfl (by decide) (by decide) (by rfl)

end Mux
